import Mathlib

/-!
Verification development for the go-select-cache repository.

This file shallowly embeds the core of the repository in Lean 4:

* `GenerateCacheKey` (cache.go) together with a full executable SHA-256,
* the TTL/LRU cache store `TTLCache` (cache.go) with its mutators,
* the content classifier `ContentDetector.ShouldCache` (detector.go),
* the byte-stream interceptor `CachingConnection` (connection.go): the
  cache-key derivation of `tryParseHTTPRequestFromBuffer`, the handler-path
  key derivation `createCacheKey` (selectcache.go), `buildHTTPResponse`,
  `tryServeCachedResponse`, `writeAndBufferResponse` and the `Read`/`Write`
  entry points.

Modelling conventions:

* Go `time.Time` instants and `time.Duration` values are natural numbers
  (nanoseconds); `time.Now()` is an explicit `now : Nat` argument threaded
  through each operation that reads the clock.
* Go `uint64` arithmetic is `Nat` with explicit reduction modulo `2^64`
  (`u64add`, `u64sub`); Go `int` sizes are plain `Nat`.
* Go `[]byte` is `List Nat` (each element a byte value); Go `string` is a
  Lean `String`, converted to bytes by an explicit UTF-8 encoder so that
  `len(s)` and `[]byte(s)` agree with Go.
* Go maps (`map[string]string`, `map[string]*CacheEntry`, `http.Header`)
  are association lists whose key lists are kept duplicate-free; all
  operations on them are order-insensitive under that invariant.
* Underlying network I/O (`net.Conn`) is abstracted: reads take the
  delivered chunk as an argument, writes to the wire are collected into a
  byte list and always succeed (the interceptor forwards underlying I/O
  errors verbatim, which is outside the claims studied here).
-/

/-! ### Unsigned 64-bit arithmetic -/

/-- Modulus of Go's `uint64`. -/
def U64 : Nat := 18446744073709551616

/-- Go `uint64` addition (wraps modulo `2^64`). -/
def u64add (a b : Nat) : Nat := (a + b) % U64

/-- Go `uint64` subtraction (wraps modulo `2^64`). -/
def u64sub (a b : Nat) : Nat := (a + (U64 - b % U64)) % U64

/-! ### Bytes and strings

Go strings are UTF-8 byte sequences; `len` counts bytes.  We convert Lean
strings (lists of code points) to byte lists with a UTF-8 encoder, so byte
lengths and hash inputs agree with Go. -/

/-- UTF-8 encoding of one code point, as byte values. -/
def utf8Bytes (c : Char) : List Nat :=
  let n := c.toNat
  if n < 128 then [n]
  else if n < 2048 then [192 + n / 64, 128 + n % 64]
  else if n < 65536 then [224 + n / 4096, 128 + n / 64 % 64, 128 + n % 64]
  else [240 + n / 262144, 128 + n / 4096 % 64, 128 + n / 64 % 64, 128 + n % 64]

/-- The UTF-8 bytes of a string: Go's `[]byte(s)`. -/
def strBytes (s : String) : List Nat := (s.data.map utf8Bytes).flatten

/-- Go's `len(s)` for a string: its UTF-8 byte length. -/
def byteLen (s : String) : Nat := (strBytes s).length

/-- Go's `strings.ToLower`, restricted to its ASCII action (every string
appearing in the configuration and claims is ASCII, where the two agree). -/
def toLowerS (s : String) : String := ⟨s.data.map Char.toLower⟩

/-- Whether `sub` occurs at the start of `s` (on lists of characters). -/
def leadsWith : List Char → List Char → Bool
  | [], _ => true
  | _ :: _, [] => false
  | a :: as, b :: bs => a == b && leadsWith as bs

/-- Whether `sub` occurs somewhere inside `s` (on lists of characters). -/
def occursIn (sub : List Char) : List Char → Bool
  | [] => sub.isEmpty
  | b :: bs => leadsWith sub (b :: bs) || occursIn sub bs

/-- Go's `strings.Contains s sub`. -/
def strContains (s sub : String) : Bool := occursIn sub.data s.data

/-! ### SHA-256

A complete executable SHA-256 over byte lists, used by `GenerateCacheKey`
exactly as `crypto/sha256` is used in cache.go. -/

/-- Reduction modulo `2^32` (32-bit word arithmetic). -/
def w32 (n : Nat) : Nat := n % 4294967296

/-- Rotate a 32-bit word right by `n` positions. -/
def rotr32 (n x : Nat) : Nat := w32 (x / 2 ^ n + x % 2 ^ n * 2 ^ (32 - n))

/-- Bitwise complement within 32 bits. -/
def not32 (x : Nat) : Nat := Nat.xor x 4294967295

/-- SHA-256 `Ch` function. -/
def shaCh (x y z : Nat) : Nat := Nat.xor (Nat.land x y) (Nat.land (not32 x) z)

/-- SHA-256 `Maj` function. -/
def shaMaj (x y z : Nat) : Nat :=
  Nat.xor (Nat.land x y) (Nat.xor (Nat.land x z) (Nat.land y z))

/-- SHA-256 big sigma-0. -/
def bigSigma0 (x : Nat) : Nat := Nat.xor (rotr32 2 x) (Nat.xor (rotr32 13 x) (rotr32 22 x))

/-- SHA-256 big sigma-1. -/
def bigSigma1 (x : Nat) : Nat := Nat.xor (rotr32 6 x) (Nat.xor (rotr32 11 x) (rotr32 25 x))

/-- SHA-256 small sigma-0. -/
def smallSigma0 (x : Nat) : Nat := Nat.xor (rotr32 7 x) (Nat.xor (rotr32 18 x) (x / 8))

/-- SHA-256 small sigma-1. -/
def smallSigma1 (x : Nat) : Nat := Nat.xor (rotr32 17 x) (Nat.xor (rotr32 19 x) (x / 1024))

/-- The 64 SHA-256 round constants (FIPS 180-4, in decimal). -/
def shaK : List Nat :=
  [1116352408, 1899447441, 3049323471, 3921009573, 961987163,
   1508970993, 2453635748, 2870763221, 3624381080, 310598401,
   607225278, 1426881987, 1925078388, 2162078206, 2614888103,
   3248222580, 3835390401, 4022224774, 264347078, 604807628,
   770255983, 1249150122, 1555081692, 1996064986, 2554220882,
   2821834349, 2952996808, 3210313671, 3336571891, 3584528711,
   113926993, 338241895, 666307205, 773529912, 1294757372,
   1396182291, 1695183700, 1986661051, 2177026350, 2456956037,
   2730485921, 2820302411, 3259730800, 3345764771, 3516065817,
   3600352804, 4094571909, 275423344, 430227734, 506948616,
   659060556, 883997877, 958139571, 1322822218, 1537002063,
   1747873779, 1955562222, 2024104815, 2227730452, 2361852424,
   2428436474, 2756734187, 3204031479, 3329325298]

/-- Working state of the SHA-256 compression function. -/
structure SHAState where
  a : Nat
  b : Nat
  c : Nat
  d : Nat
  e : Nat
  f : Nat
  g : Nat
  h : Nat
deriving Repr, DecidableEq

/-- The SHA-256 initial hash value (FIPS 180-4, in decimal). -/
def shaInit : SHAState :=
  ⟨1779033703, 3144134277, 1013904242, 2773480762,
   1359893119, 2600822924, 528734635, 1541459225⟩

/-- One round of the SHA-256 compression function; `kw` is `K[i] + W[i]`
already reduced mod `2^32`. -/
def shaRound (st : SHAState) (kw : Nat) : SHAState :=
  let t1 := w32 (st.h + bigSigma1 st.e + shaCh st.e st.f st.g + kw)
  let t2 := w32 (bigSigma0 st.a + shaMaj st.a st.b st.c)
  ⟨w32 (t1 + t2), st.a, st.b, st.c, w32 (st.d + t1), st.e, st.f, st.g⟩

/-- Big-endian 32-bit words from a byte list (leftover bytes dropped; blocks
are always a multiple of four bytes). -/
def beWords : List Nat → List Nat
  | a :: b :: c :: d :: rest => (a * 16777216 + b * 65536 + c * 256 + d) :: beWords rest
  | _ => []

/-- Extend the 16 message words of a block to 64, appending `fuel` words. -/
def extendWords : Nat → List Nat → List Nat
  | 0, ws => ws
  | n + 1, ws =>
    let i := ws.length
    let w := w32 (ws.getD (i - 16) 0 + smallSigma0 (ws.getD (i - 15) 0)
                  + ws.getD (i - 7) 0 + smallSigma1 (ws.getD (i - 2) 0))
    extendWords n (ws ++ [w])

/-- Process one 64-byte block. -/
def shaBlock (hv : SHAState) (block : List Nat) : SHAState :=
  let ws := extendWords 48 (beWords block)
  let kws := (shaK.zip ws).map fun p => w32 (p.1 + p.2)
  let st := kws.foldl shaRound hv
  ⟨w32 (hv.a + st.a), w32 (hv.b + st.b), w32 (hv.c + st.c), w32 (hv.d + st.d),
   w32 (hv.e + st.e), w32 (hv.f + st.f), w32 (hv.g + st.g), w32 (hv.h + st.h)⟩

/-- Big-endian 8-byte encoding of a length in bits. -/
def be64 (n : Nat) : List Nat :=
  [n / 2 ^ 56 % 256, n / 2 ^ 48 % 256, n / 2 ^ 40 % 256, n / 2 ^ 32 % 256,
   n / 2 ^ 24 % 256, n / 2 ^ 16 % 256, n / 2 ^ 8 % 256, n % 256]

/-- SHA-256 padding: `0x80`, zeros to 56 mod 64, then the 64-bit bit length. -/
def sha256pad (msg : List Nat) : List Nat :=
  let len := msg.length
  let z := (64 - (len + 9) % 64) % 64
  msg ++ 128 :: (List.replicate z 0 ++ be64 (8 * len))

/-- Split a byte list into 64-byte blocks (`fuel` bounds the recursion). -/
def chunks64 : Nat → List Nat → List (List Nat)
  | 0, _ => []
  | _ + 1, [] => []
  | fuel + 1, l => l.take 64 :: chunks64 fuel (l.drop 64)

/-- Four big-endian bytes of a 32-bit word. -/
def wordBytes (x : Nat) : List Nat := [x / 16777216 % 256, x / 65536 % 256, x / 256 % 256, x % 256]

/-- SHA-256 digest (32 bytes) of a byte list. -/
def sha256 (msg : List Nat) : List Nat :=
  let padded := sha256pad msg
  let hv := (chunks64 padded.length padded).foldl shaBlock shaInit
  wordBytes hv.a ++ wordBytes hv.b ++ wordBytes hv.c ++ wordBytes hv.d ++
  wordBytes hv.e ++ wordBytes hv.f ++ wordBytes hv.g ++ wordBytes hv.h

/-- Lowercase hex digit for a value below 16. -/
def hexDigit (n : Nat) : Char :=
  if n < 10 then Char.ofNat (48 + n) else Char.ofNat (87 + n)

/-- Lowercase hex encoding of a byte list, as characters. -/
def hexChars (bs : List Nat) : List Char :=
  (bs.map fun b => [hexDigit (b / 16), hexDigit (b % 16)]).flatten

/-! ### The key deriver `GenerateCacheKey` (cache.go, lines 374-405) -/

/-- Lexicographic comparison of character lists by code point; on UTF-8
strings this coincides with Go's byte-wise string order. -/
def charListLe : List Char → List Char → Bool
  | [], _ => true
  | _ :: _, [] => false
  | a :: as, b :: bs =>
    if a.toNat < b.toNat then true
    else if b.toNat < a.toNat then false
    else charListLe as bs

/-- Go's string `<=` (byte-wise lexicographic). -/
def strLeB (a b : String) : Bool := charListLe a.data b.data

/-- Insert a string into a sorted list of strings. -/
def insertStr (x : String) : List String → List String
  | [] => [x]
  | y :: ys => if strLeB x y then x :: y :: ys else y :: insertStr x ys

/-- Go's `sort.Strings` (ascending byte-wise order). -/
def sortStrings : List String → List String
  | [] => []
  | x :: xs => insertStr x (sortStrings xs)

/-- Lookup in a `map[string]string` modelled as an association list
(`""` for a missing key, which never occurs on the uses below). -/
def mapGet (m : List (String × String)) (k : String) : String :=
  match m.find? (fun p => p.1 == k) with
  | some p => p.2
  | none => ""

/-- cache.go `GenerateCacheKey`: join method, path, optional `query=`
component and sorted `name=value` header components with `|`, hash with
SHA-256 and keep the first 16 lowercase hex characters.  Note that header
names and values are folded in verbatim, with no escaping. -/
def GenerateCacheKey (method path query : String) (headers : List (String × String)) : String :=
  let keyParts := [method, path]
  let keyParts := if query ≠ "" then keyParts ++ ["query=" ++ query] else keyParts
  let keyParts :=
    if headers.length > 0 then
      let headerKeys := sortStrings (headers.map (·.1))
      keyParts ++ headerKeys.map (fun k => k ++ "=" ++ mapGet headers k)
    else keyParts
  let keyString := String.intercalate "|" keyParts
  ⟨(hexChars (sha256 (strBytes keyString))).take 16⟩

/-! ### The two request fingerprint paths

An HTTP request as produced by Go's `http.ReadRequest` (the standard
library parser is an external collaborator; requests enter the model
already parsed).  Header names are in canonical form. -/

structure HTTPRequest where
  method : String
  path : String
  rawQuery : String
  headers : List (String × List String)
deriving Repr, DecidableEq

/-- Go's `http.Header.Get`: first value of the named header, `""` when
absent. -/
def headerGet (h : List (String × List String)) (k : String) : String :=
  match h.find? (fun p => p.1 == k) with
  | some p => p.2.headD ""
  | none => ""

/-- The caching-relevant header names, as listed identically in
selectcache.go `createCacheKey` and connection.go
`tryParseHTTPRequestFromBuffer`. -/
def cachingHeaderNames : List String :=
  ["Accept", "Accept-Encoding", "Accept-Language", "Authorization"]

/-- Collect the caching-relevant headers that are present, as the
`map[string]string` built by both key-derivation sites. -/
def selectCachingHeaders (req : HTTPRequest) : List (String × String) :=
  cachingHeaderNames.foldl
    (fun acc h =>
      let v := headerGet req.headers h
      if v ≠ "" then acc ++ [(h, v)] else acc) []

/-- connection.go `tryParseHTTPRequestFromBuffer`, key-derivation part
(lines 345-367): a cache key is produced for GET and HEAD requests, using
the request method VERBATIM (no aliasing of HEAD to GET). -/
def tryParseCacheKey (req : HTTPRequest) : Option String :=
  if req.method == "GET" || req.method == "HEAD" then
    let headers := selectCachingHeaders req
    let query := if req.rawQuery ≠ "" then req.rawQuery else ""
    some (GenerateCacheKey req.method req.path query headers)
  else
    none

/-- selectcache.go `createCacheKey` (lines 104-128): same header selection
and query handling, but HEAD is aliased to GET before fingerprinting. -/
def createCacheKey (req : HTTPRequest) : String :=
  let headers := selectCachingHeaders req
  let query := if req.rawQuery ≠ "" then req.rawQuery else ""
  let method := if req.method == "HEAD" then "GET" else req.method
  GenerateCacheKey method req.path query headers

/-! ### Configuration (config.go) and metrics (metrics)

Only the configuration fields the modelled operations read are carried.
Durations are nanoseconds.  Of the metrics collector we model the five
operation counters (hits, misses, stores, evictions, deletions) together
with the `enabled` flag; the timing accumulators and memory gauges are
orthogonal to every claim. -/

structure CacheConfig where
  defaultTTL : Nat
  contentTypeTTLs : List (String × Nat)
  maxMemoryMB : Nat
  maxEntries : Nat
  excludedTypes : List String
deriving Repr, DecidableEq

/-- config.go `GetTTLForContentType`. -/
def CacheConfig.GetTTLForContentType (c : CacheConfig) (contentType : String) : Nat :=
  match c.contentTypeTTLs.find? (fun p => p.1 == contentType) with
  | some p => p.2
  | none => c.defaultTTL

/-- config.go `IsContentTypeExcluded`: case-insensitive substring match
against each excluded type. -/
def CacheConfig.IsContentTypeExcluded (c : CacheConfig) (contentType : String) : Bool :=
  c.excludedTypes.any fun excluded =>
    strContains (toLowerS contentType) (toLowerS excluded)

structure CacheMetrics where
  enabled : Bool
  hits : Nat
  misses : Nat
  stores : Nat
  evictions : Nat
  deletions : Nat
deriving Repr, DecidableEq

/-- metrics `NewCacheMetrics`. -/
def NewCacheMetrics (enabled : Bool) : CacheMetrics := ⟨enabled, 0, 0, 0, 0, 0⟩

/-- metrics `RecordHit` (no-op when disabled). -/
def CacheMetrics.RecordHit (m : CacheMetrics) : CacheMetrics :=
  if m.enabled then { m with hits := m.hits + 1 } else m

/-- metrics `RecordMiss`. -/
def CacheMetrics.RecordMiss (m : CacheMetrics) : CacheMetrics :=
  if m.enabled then { m with misses := m.misses + 1 } else m

/-- metrics `RecordStore`. -/
def CacheMetrics.RecordStore (m : CacheMetrics) : CacheMetrics :=
  if m.enabled then { m with stores := m.stores + 1 } else m

/-- metrics `RecordEviction`. -/
def CacheMetrics.RecordEviction (m : CacheMetrics) : CacheMetrics :=
  if m.enabled then { m with evictions := m.evictions + 1 } else m

/-- metrics `RecordDeletion`. -/
def CacheMetrics.RecordDeletion (m : CacheMetrics) : CacheMetrics :=
  if m.enabled then { m with deletions := m.deletions + 1 } else m

/-- Iterate `RecordMiss`/`RecordDeletion`-style updates `n` times, as the
`for i := 0; i < n; i++` loops around the metric calls do. -/
def iterateMetric (f : CacheMetrics → CacheMetrics) : Nat → CacheMetrics → CacheMetrics
  | 0, m => m
  | n + 1, m => iterateMetric f n (f m)

/-- A `nil`-able metrics pointer, updated only when present. -/
def updMetrics (f : CacheMetrics → CacheMetrics) : Option CacheMetrics → Option CacheMetrics
  | some m => some (f m)
  | none => none

/-! ### The artifact store `TTLCache` (cache.go) -/

structure CacheEntry where
  data : List Nat
  headers : List (String × List String)
  expiresAt : Nat
  accessTime : Nat
  storeTime : Nat
  contentType : String
  size : Nat
deriving Repr, DecidableEq

/-- cache.go `CacheEntry.IsExpired`: `time.Now().After(ExpiresAt)`, i.e.
strictly after the expiration instant. -/
def CacheEntry.IsExpired (e : CacheEntry) (now : Nat) : Bool :=
  decide (now > e.expiresAt)

/-- The `map[string]*CacheEntry` of the store, as an association list with
duplicate-free keys. -/
abbrev EntryMap := List (String × CacheEntry)

/-- Go map lookup `c.entries[key]`. -/
def lookupEntry (m : EntryMap) (key : String) : Option CacheEntry :=
  match m.find? (fun p => p.1 == key) with
  | some p => some p.2
  | none => none

/-- Go map deletion `delete(c.entries, key)`. -/
def eraseEntry (m : EntryMap) (key : String) : EntryMap :=
  m.filter (fun p => p.1 != key)

/-- Go map assignment `c.entries[key] = e` (replaces any previous binding). -/
def setEntry (m : EntryMap) (key : String) (e : CacheEntry) : EntryMap :=
  eraseEntry m key ++ [(key, e)]

/-- Sum of the `Size` fields of the present entries. -/
def sumSizes (m : EntryMap) : Nat := (m.map (fun p => p.2.size)).sum

structure TTLCache where
  entries : EntryMap
  config : CacheConfig
  metrics : Option CacheMetrics
  currentMemoryBytes : Nat
deriving Repr, DecidableEq

/-- cache.go `NewTTLCache` (the background cleanup task itself is modelled
by explicit `cleanupExpired` calls). -/
def NewTTLCache (config : CacheConfig) (metrics : Option CacheMetrics) : TTLCache :=
  ⟨[], config, metrics, 0⟩

/-- cache.go `calculateHeaderSize`: summed byte lengths of every header key
and every value. -/
def calculateHeaderSize (headers : List (String × List String)) : Nat :=
  headers.foldl (fun size kv => size + byteLen kv.1 + (kv.2.map byteLen).sum) 0

/-- cache.go `createCacheEntry`: data and headers are copied, the timing
fields are set to `now` (+ `ttl` for the expiry) and the size is the data
length plus the header size. -/
def createCacheEntry (data : List Nat) (headers : List (String × List String))
    (ttl now : Nat) : CacheEntry :=
  { data := data
    headers := headers
    expiresAt := now + ttl
    accessTime := now
    storeTime := now
    contentType := headerGet headers "Content-Type"
    size := data.length + calculateHeaderSize headers }

/-- The byte budget `uint64(c.config.MaxMemoryMB) * 1024 * 1024`. -/
def maxMemoryBytes (c : CacheConfig) : Nat := c.maxMemoryMB * 1024 * 1024 % U64

/-- cache.go `Get`.  Returns the entry (access time refreshed) on a live
hit; removes the entry, decrements the byte total and records a miss when
the stored entry has expired (`removeExpiredEntry`); records a miss when
absent.  `now` is the instant of the lookup. -/
def TTLCache.Get (c : TTLCache) (key : String) (now : Nat) :
    Option CacheEntry × TTLCache :=
  match lookupEntry c.entries key with
  | none => (none, { c with metrics := updMetrics CacheMetrics.RecordMiss c.metrics })
  | some entry =>
    if entry.IsExpired now then
      (none,
        { c with
          entries := eraseEntry c.entries key
          currentMemoryBytes := u64sub c.currentMemoryBytes entry.size
          metrics := updMetrics CacheMetrics.RecordMiss c.metrics })
    else
      let entry' := { entry with accessTime := now }
      (some entry',
        { c with
          entries := setEntry c.entries key entry'
          metrics := updMetrics CacheMetrics.RecordHit c.metrics })

/-- The eviction scan of cache.go `evictLRU`: walk the access-time-sorted
entries; delete each entry and accumulate its size (`uint64` addition)
until the freed bytes reach `bytesToFree`.  Returns the evicted entries,
the surviving entries and the freed byte count.  Deleting the keys of the
sorted prefix from the map leaves exactly the sorted suffix, which is the
returned survivor list (the map is unordered, so any ordering of it is a
faithful representation). -/
def evictScan (bytesToFree : Nat) (freed : Nat) :
    EntryMap → EntryMap × EntryMap × Nat
  | [] => ([], [], freed)
  | e :: rest =>
    let freed' := u64add freed e.2.size
    if bytesToFree ≤ freed' then ([e], rest, freed')
    else
      let (ev, surv, f) := evictScan bytesToFree freed' rest
      (e :: ev, surv, f)

/-- The access-time order used by `evictLRU`'s `sort.Slice` comparator
`entries[i].entry.AccessTime.Before(entries[j].entry.AccessTime)`.  The Go
sort produces a list nondecreasing in access time with ties in an
unspecified order; `insertionSort` by `≤` produces one such list. -/
def leAccess (a b : String × CacheEntry) : Prop :=
  a.2.accessTime ≤ b.2.accessTime

instance : DecidableRel leAccess := fun a b => Nat.decLe a.2.accessTime b.2.accessTime

/-- cache.go `evictLRU` (lines 279-315), additionally returning the list of
evicted entries (the Go function returns their count, used only for
`RecordEviction` calls in `checkMemoryLimits`). -/
def TTLCache.evictLRU (c : TTLCache) (bytesToFree : Nat) : TTLCache × EntryMap :=
  if c.entries.isEmpty then (c, [])
  else
    let sorted := c.entries.insertionSort leAccess
    let (ev, surv, freedBytes) := evictScan bytesToFree 0 sorted
    ({ c with
        entries := surv
        currentMemoryBytes := u64sub c.currentMemoryBytes freedBytes }, ev)

/-- cache.go `checkMemoryLimits` (lines 163-176): when the new usage would
exceed the byte budget or the entry count has reached the entry cap, evict
`newMemoryUsage - maxMemoryBytes + entrySize` bytes — `uint64` arithmetic
that wraps around when `newMemoryUsage < maxMemoryBytes`. -/
def TTLCache.checkMemoryLimits (c : TTLCache) (entrySize : Nat) : TTLCache × EntryMap :=
  let newMemoryUsage := u64add c.currentMemoryBytes entrySize
  let maxB := maxMemoryBytes c.config
  if newMemoryUsage > maxB ∨ c.entries.length ≥ c.config.maxEntries then
    let (c', ev) := c.evictLRU (u64add (u64sub newMemoryUsage maxB) entrySize)
    ({ c' with metrics := updMetrics (iterateMetric CacheMetrics.RecordEviction ev.length) c'.metrics }, ev)
  else
    (c, [])

/-- cache.go `removeExistingEntry` (lines 178-183): subtract the byte cost
of any existing entry for the key.  (The map binding itself is not removed
here; the subsequent `storeCacheEntry` overwrites it.) -/
def TTLCache.removeExistingEntry (c : TTLCache) (key : String) : TTLCache :=
  match lookupEntry c.entries key with
  | some existing =>
    { c with currentMemoryBytes := u64sub c.currentMemoryBytes existing.size }
  | none => c

/-- cache.go `storeCacheEntry`. -/
def TTLCache.storeCacheEntry (c : TTLCache) (key : String) (entry : CacheEntry) : TTLCache :=
  { c with
    entries := setEntry c.entries key entry
    currentMemoryBytes := u64add c.currentMemoryBytes entry.size
    metrics := updMetrics CacheMetrics.RecordStore c.metrics }

/-- cache.go `Set` (lines 197-215), additionally returning the entries the
triggered eviction removed. -/
def TTLCache.setWithEvictions (c : TTLCache) (key : String) (data : List Nat)
    (headers : List (String × List String)) (ttl now : Nat) : TTLCache × EntryMap :=
  let entry := createCacheEntry data headers ttl now
  let (c1, ev) := c.checkMemoryLimits entry.size
  ((c1.removeExistingEntry key).storeCacheEntry key entry, ev)

/-- cache.go `Set`. -/
def TTLCache.Set (c : TTLCache) (key : String) (data : List Nat)
    (headers : List (String × List String)) (ttl now : Nat) : TTLCache :=
  (c.setWithEvictions key data headers ttl now).1

/-- cache.go `Delete`. -/
def TTLCache.Delete (c : TTLCache) (key : String) : TTLCache × Bool :=
  match lookupEntry c.entries key with
  | some entry =>
    ({ c with
        entries := eraseEntry c.entries key
        currentMemoryBytes := u64sub c.currentMemoryBytes entry.size
        metrics := updMetrics CacheMetrics.RecordDeletion c.metrics }, true)
  | none => (c, false)

/-- cache.go `Clear`. -/
def TTLCache.Clear (c : TTLCache) : TTLCache :=
  { c with
    entries := []
    currentMemoryBytes := 0
    metrics := updMetrics (iterateMetric CacheMetrics.RecordDeletion c.entries.length) c.metrics }

/-- cache.go `cleanupExpired` (the body of one sweep pass): remove every
entry whose expiration is strictly past, subtract the freed bytes once,
record one deletion per removed entry. -/
def TTLCache.cleanupExpired (c : TTLCache) (now : Nat) : TTLCache :=
  let expired := c.entries.filter (fun p => decide (now > p.2.expiresAt))
  let freed := (expired.map (fun p => p.2.size)).foldl u64add 0
  { c with
    entries := c.entries.filter (fun p => ¬ now > p.2.expiresAt)
    currentMemoryBytes := u64sub c.currentMemoryBytes freed
    metrics := updMetrics (iterateMetric CacheMetrics.RecordDeletion expired.length) c.metrics }

/-- cache.go `Size`. -/
def TTLCache.Size (c : TTLCache) : Nat := c.entries.length

/-- cache.go `MemoryUsage`. -/
def TTLCache.MemoryUsage (c : TTLCache) : Nat := c.currentMemoryBytes

/-- The key list of a modelled Go map. -/
def keysOf (m : EntryMap) : List String := m.map Prod.fst

/-- Well-formed store states over a configuration `cfg`: the byte total is
the exact sum of the present costs, keys are duplicate-free (a Go map), no
present cost exceeds the byte budget, and both store bounds hold.  These
are the §3 invariants of the spec, carried inductively. -/
def WFB (cfg : CacheConfig) (c : TTLCache) : Prop :=
  c.config = cfg ∧
  c.currentMemoryBytes = sumSizes c.entries ∧
  (keysOf c.entries).Nodup ∧
  (∀ p ∈ c.entries, p.2.size ≤ maxMemoryBytes cfg) ∧
  sumSizes c.entries ≤ maxMemoryBytes cfg ∧
  c.entries.length ≤ cfg.maxEntries

instance (cfg : CacheConfig) (c : TTLCache) : Decidable (WFB cfg c) := by
  unfold WFB
  infer_instance

/-! ### The content classifier (detector.go) -/

/-- detector.go `isHTMLContentType`: the lowercased Content-Type contains
one of the three HTML type strings. -/
def isHTMLContentType (contentType : String) : Bool :=
  if contentType == "" then false
  else
    let contentTypeLower := toLowerS contentType
    ["text/html", "application/xhtml+xml", "application/xhtml"].any
      (fun htmlType => strContains contentTypeLower htmlType)

/-- detector.go `IsHTMLContent`: decided from the Content-Type header only;
the response body bytes are ignored. -/
def IsHTMLContent (_response : List Nat) (headers : List (String × List String)) : Bool :=
  isHTMLContentType (headerGet headers "Content-Type")

/-- detector.go `isCacheableStatusCode`. -/
def isCacheableStatusCode (statusCode : Nat) : Bool :=
  [200, 201, 300, 301, 302, 304, 307, 308, 410].any (fun code => statusCode == code)

/-- detector.go `GetContentType`: default for a missing header, parameters
stripped at the first `;`, lowercased and trimmed. -/
def GetContentType (headers : List (String × List String)) : String :=
  let contentType := headerGet headers "Content-Type"
  if contentType == "" then "application/octet-stream"
  else
    let upToSemi : String :=
      match contentType.data.findIdx? (fun c => c == ';') with
      | some idx => ⟨contentType.data.take idx⟩
      | none => contentType
    toLowerS upToSemi.trim

/-- detector.go `ShouldCache` (lines 30-53): status gate, excluded-type
gate, HTML gate (header-only) and the size gate
`len(response) > MaxMemoryMB*1024*1024/10`. -/
def ShouldCache (config : CacheConfig) (response : List Nat)
    (headers : List (String × List String)) (statusCode : Nat) : Bool :=
  if ¬ isCacheableStatusCode statusCode then false
  else if config.IsContentTypeExcluded (headerGet headers "Content-Type") then false
  else if IsHTMLContent response headers then false
  else if response.length > config.maxMemoryMB * 1024 * 1024 / 10 then false
  else true

/-- detector.go `ResponseAnalysis`, the fields the interceptor reads. -/
structure ResponseAnalysis where
  isCacheable : Bool
  recommendedTTL : Nat
deriving Repr, DecidableEq

/-- detector.go `AnalyzeResponse`: cacheability via `ShouldCache` and, when
cacheable, the per-content-type TTL (`0` otherwise, left to the caller's
default fallback). -/
def AnalyzeResponse (config : CacheConfig) (response : List Nat)
    (headers : List (String × List String)) (statusCode : Nat) : ResponseAnalysis :=
  let isCacheable := ShouldCache config response headers statusCode
  { isCacheable := isCacheable
    recommendedTTL :=
      if isCacheable then config.GetTTLForContentType (GetContentType headers) else 0 }

/-! ### The byte-stream interceptor (connection.go)

The connection state carries the flags and buffers of `CachingConnection`.
The underlying `net.Conn` is abstracted: `Read` takes the chunk the
underlying read delivered; everything a `Write` sends to the underlying
connection is returned as a byte list (`wire`), and underlying writes
succeed. -/

structure CachingConnection where
  closed : Bool
  isHTTPRequest : Bool
  cacheKey : String
  requestBuffer : List Nat
  responseBuffer : List Nat
deriving Repr, DecidableEq

/-- connection.go `NewCachingConnection` (fresh connection state). -/
def NewCachingConnection : CachingConnection :=
  ⟨false, false, "", [], []⟩

/-- Errors the interceptor can return: `io.EOF` and `io.ErrClosedPipe`. -/
inductive ConnError where
  | eof : ConnError
  | closedPipe : ConnError
deriving Repr, DecidableEq

/-- connection.go `maxBufferSize` (1 MiB). -/
def maxBufferSize : Nat := 1024 * 1024

/-- Index of the first occurrence of `pat` in `l` (Go's `bytes.Index`). -/
def bytesIndex (l pat : List Nat) : Option Nat :=
  aux l 0
where
  aux : List Nat → Nat → Option Nat
    | [], i => if pat.isEmpty ∧ i == 0 then some 0 else none
    | b :: bs, i =>
      if (pat.zip (b :: bs)).length == pat.length ∧
          (pat.zip (b :: bs)).all (fun p => p.1 == p.2) then some i
      else aux bs (i + 1)

/-- Go's `bytes.Contains`. -/
def bytesContains (l pat : List Nat) : Bool := (bytesIndex l pat).isSome

/-- The end-of-headers search shared by request and response handling:
index of `\r\n\r\n`, else index of `\n\n`.  Returns the index together with
the sentinel that matched. -/
def findHeaderEnd (buf : List Nat) : Option Nat :=
  match bytesIndex buf [13, 10, 13, 10] with
  | some i => some i
  | none => bytesIndex buf [10, 10]

/-- connection.go `Read` (lines 73-118).  `chunk` is what the underlying
`c.Conn.Read` delivered (an underlying error is forwarded verbatim before
any buffer work, so only successful reads are modelled) and `parse` is the
standard library `http.ReadRequest` applied to a byte prefix — an external
collaborator, abstracted as an oracle from bytes to an optional request.
Returns `(n, error)` and the new connection state. -/
def connRead (c : CachingConnection) (chunk : List Nat)
    (parse : List Nat → Option HTTPRequest) :
    (Nat × Option ConnError) × CachingConnection :=
  if c.closed then
    ((0, some ConnError.eof), c)
  else
    let n := chunk.length
    let buf0 := if c.requestBuffer.length + n > maxBufferSize then [] else c.requestBuffer
    let buf1 := buf0 ++ chunk
    let needsParsing := ¬ c.isHTTPRequest ∧ buf1.length > 0
    let bufCopy := buf1
    let buf2 := if buf1.length > 8192 ∧ ¬ c.isHTTPRequest then [] else buf1
    let c1 := { c with requestBuffer := buf2 }
    let c2 :=
      if needsParsing then connTryParseRequest c1 bufCopy parse
      else c1
    ((n, none), c2)
where
  /-- connection.go `tryParseHTTPRequestFromBuffer` (lines 313-368): find
  the end-of-headers sentinel, hand the prefix to the library parser, and on
  success set the parsed flag, clear the request buffer and (for GET/HEAD)
  record the fingerprint computed with the verbatim method token. -/
  connTryParseRequest (c : CachingConnection) (requestBuffer : List Nat)
      (parse : List Nat → Option HTTPRequest) : CachingConnection :=
    match findHeaderEnd requestBuffer with
    | none => c
    | some headerEnd =>
      match parse (requestBuffer.take (headerEnd + 4)) with
      | none => c
      | some req =>
        let c1 := { c with isHTTPRequest := true, requestBuffer := [] }
        match tryParseCacheKey req with
        | some key => { c1 with cacheKey := key }
        | none => c1

/-- connection.go `buildHTTPResponse` (lines 467-492): a fixed
`HTTP/1.1 200 OK` status line regardless of the stored response's original
status, every stored header field-value, the two cache headers, a blank
line, then the stored body.  The age is whole seconds since the store
instant (instants are nanoseconds). -/
def buildHTTPResponse (entry : CacheEntry) (now : Nat) : List Nat :=
  strBytes "HTTP/1.1 200 OK\r\n"
    ++ (entry.headers.map fun kv =>
          (kv.2.map fun v => strBytes (kv.1 ++ ": " ++ v ++ "\r\n")).flatten).flatten
    ++ strBytes "X-Cache-Status: HIT\r\n"
    ++ strBytes ("X-Cache-Age: " ++ Nat.repr ((now - entry.storeTime) / 1000000000) ++ "\r\n")
    ++ strBytes "\r\n"
    ++ entry.data

/-- Result of a `Write` call: the value pair Go returns, the bytes sent to
the underlying connection, and the updated connection and cache states. -/
structure WriteResult where
  n : Nat
  err : Option ConnError
  wire : List Nat
  conn : CachingConnection
  cache : TTLCache
deriving Repr, DecidableEq

/-- connection.go `tryServeCachedResponse` (lines 139-164).  On a closed
connection it reports `(true, 0)` — and `Write` then returns `(0, nil)`;
the `io.ErrClosedPipe` branch of `writeAndBufferResponse` is never reached.
On a cache hit the fingerprint is cleared, the serialized entry is written
to the underlying connection, a hit is recorded
(`writeCachedResponse`/metrics), and the caller's byte count is returned. -/
def tryServeCachedResponse (c : CachingConnection) (cache : TTLCache)
    (b : List Nat) (now : Nat) :
    ((Bool × Nat) × List Nat) × CachingConnection × TTLCache :=
  if c.closed then
    (((true, 0), []), c, cache)
  else if c.cacheKey ≠ "" then
    match cache.Get c.cacheKey now with
    | (some entry, cache') =>
      let c' := { c with cacheKey := "" }
      let cachedData := buildHTTPResponse entry now
      let cache'' := { cache' with metrics := updMetrics CacheMetrics.RecordHit cache'.metrics }
      (((true, b.length), cachedData), c', cache'')
    | (none, cache') => (((false, 0), []), c, cache')
  else
    (((false, 0), []), c, cache)

/-- connection.go `writeAndBufferResponse` (lines 166-202): closed-pipe
check, underlying write, then the buffer discipline (1 MiB hard cap before
appending, 16 KiB soft reset after). -/
def writeAndBufferResponse (c : CachingConnection) (b : List Nat) :
    (Nat × Option ConnError) × List Nat × CachingConnection :=
  if c.closed then
    ((0, some ConnError.closedPipe), [], c)
  else
    let buf0 := if c.responseBuffer.length + b.length > maxBufferSize then [] else c.responseBuffer
    let buf1 := buf0 ++ b
    let buf2 := if buf1.length > 16384 then [] else buf1
    ((b.length, none), b, { c with responseBuffer := buf2 })

/-- connection.go `shouldAnalyzeResponse` (lines 220-236), evaluated on the
response buffer as it stands after the append. -/
def shouldAnalyzeResponse (c : CachingConnection) (b : List Nat) : Bool :=
  if c.responseBuffer.isEmpty then false
  else
    (findHeaderEnd c.responseBuffer).isSome ∧
      (b.length < 1024 ∨ bytesContains b [13, 10, 13, 10] ∨ bytesContains b [10, 10])

/-- Leading-decimal-digit parse of a status token, as `fmt.Sscanf` with
`%d` reads it (claims never exercise signs or overflow). -/
def parseDigits : List Char → Option Nat
  | [] => none
  | cs =>
    let digits := cs.takeWhile (fun ch => ch.isDigit)
    if digits.isEmpty then none
    else some (digits.foldl (fun acc ch => acc * 10 + (ch.toNat - 48)) 0)

/-- Split a character list at every occurrence of `sep` (Go `bytes.Split`
on a one-byte separator). -/
def splitOn1 (sep : Char) (cs : List Char) : List (List Char) :=
  cs.foldr
    (fun ch acc =>
      match acc with
      | [] => if ch == sep then [[], []] else [[ch]]
      | first :: rest => if ch == sep then [] :: first :: rest else (ch :: first) :: rest)
    [[]]

/-- connection.go `parseHTTPResponse` (lines 421-465): status line split at
spaces (status code from the second token), then `key: value` header lines
until the first blank line. -/
def parseHTTPResponse (headerData : List Nat) :
    Option (Nat × List (String × List String)) :=
  let chars := headerData.map Char.ofNat
  let lines := splitOn1 '\n' chars
  match lines with
  | [] => none
  | statusLine :: rest =>
    let statusStr : String := ⟨statusLine⟩
    let parts := (statusStr.trim).splitOn " "
    if parts.length < 2 then none
    else
      match parseDigits ((parts.getD 1 "").data) with
      | none => none
      | some statusCode =>
        let headers := collectHeaders rest []
        some (statusCode, headers)
where
  /-- Header accumulation: stop at the first blank line, skip lines without
  a colon, `Add` appends to any existing values for the key (trimmed key and
  value; Go's `http.Header.Add` canonicalization is left to the caller's
  already-canonical inputs). -/
  collectHeaders : List (List Char) → List (String × List String) → List (String × List String)
    | [], acc => acc
    | line :: rest, acc =>
      let s : String := (⟨line⟩ : String).trim
      if s == "" then acc
      else
        match s.data.findIdx? (fun c => c == ':') with
        | none => collectHeaders rest acc
        | some idx =>
          let key := (⟨s.data.take idx⟩ : String).trim
          let value := (⟨s.data.drop (idx + 1)⟩ : String).trim
          let acc' :=
            match acc.find? (fun p => p.1 == key) with
            | some p => (acc.filter (fun q => q.1 != key)) ++ [(key, p.2 ++ [value])]
            | none => acc ++ [(key, [value])]
          collectHeaders rest acc'

/-- connection.go `analyzeAndCacheResponseFromBuffer` (lines 370-419):
require a parsed request and a fingerprint, split the buffer at the
end-of-headers sentinel (always skipping four bytes), parse the headers,
classify, and on admission `Set` with the recommended TTL (default on 0).
The response buffer is cleared afterwards. -/
def analyzeAndCacheResponse (c : CachingConnection) (cache : TTLCache)
    (responseBuffer : List Nat) (cacheKey : String) (now : Nat) :
    CachingConnection × TTLCache :=
  if ¬ c.isHTTPRequest ∨ cacheKey = "" ∨ responseBuffer.isEmpty then (c, cache)
  else
    match findHeaderEnd responseBuffer with
    | none => (c, cache)
    | some headerEnd =>
      let headerData := responseBuffer.take headerEnd
      let bodyData := responseBuffer.drop (headerEnd + 4)
      match parseHTTPResponse headerData with
      | none => (c, cache)
      | some (statusCode, headers) =>
        let analysis := AnalyzeResponse cache.config bodyData headers statusCode
        let cache' :=
          if analysis.isCacheable then
            let ttl := if analysis.recommendedTTL = 0 then cache.config.defaultTTL
                       else analysis.recommendedTTL
            cache.Set cacheKey bodyData headers ttl now
          else cache
        ({ c with responseBuffer := [] }, cache')

/-- connection.go `Write` (lines 120-137): serve from cache if possible,
otherwise write through, buffer, and run the response analysis when the
completion heuristic fires (`checkAndAnalyzeResponse`). -/
def connWrite (c : CachingConnection) (cache : TTLCache) (b : List Nat) (now : Nat) :
    WriteResult :=
  match tryServeCachedResponse c cache b now with
  | (((true, written), wire), c', cache') =>
    { n := written, err := none, wire := wire, conn := c', cache := cache' }
  | (((false, _), _), c', cache') =>
    match writeAndBufferResponse c' b with
    | ((n, some e), wire, c'') =>
      { n := n, err := some e, wire := wire, conn := c'', cache := cache' }
    | ((n, none), wire, c'') =>
      let (c3, cache'') :=
        if shouldAnalyzeResponse c'' b then
          analyzeAndCacheResponse c'' cache' c''.responseBuffer c''.cacheKey now
        else (c'', cache')
      { n := n, err := none, wire := wire, conn := c3, cache := cache'' }

/-- connection.go `Close` (lines 238-276): idempotent; clears both buffers
and marks the connection closed. -/
def connClose (c : CachingConnection) : CachingConnection :=
  if c.closed then c
  else { c with closed := true, requestBuffer := [], responseBuffer := [] }

/-! ### Shared concrete fixtures for witnesses and counterexamples -/

/-- The default configuration shape of config.go `DefaultCacheConfig`
(15-minute TTL in nanoseconds, 512 MiB budget, 10000-entry cap, HTML
excluded). -/
def cfgA : CacheConfig :=
  ⟨900000000000, [], 512, 10000, ["text/html", "application/xhtml+xml"]⟩

/-- A stored artifact expiring at instant 5. -/
def entryB : CacheEntry := ⟨[], [], 5, 0, 0, "", 0⟩

/-- A one-entry store holding `entryB` under key `k`. -/
def cacheB : TTLCache := ⟨[("k", entryB)], cfgA, none, 0⟩

/-- An open connection bound to fingerprint `k`. -/
def connB : CachingConnection := ⟨false, true, "k", [], []⟩

/-- `entryB` after a hit at instant 3 (access time refreshed). -/
def entryB3 : CacheEntry := ⟨[], [], 5, 3, 0, "", 0⟩

/-- `cacheB` after the hit at instant 3. -/
def cacheB3 : TTLCache := ⟨[("k", entryB3)], cfgA, none, 0⟩

/-! ## Theorems -/

example : sha256 (strBytes "abc") =
    [0xba, 0x78, 0x16, 0xbf, 0x8f, 0x01, 0xcf, 0xea, 0x41, 0x41, 0x40, 0xde,
     0x5d, 0xae, 0x22, 0x23, 0xb0, 0x03, 0x61, 0xa3, 0x96, 0x17, 0x7a, 0x9c,
     0xb4, 0x10, 0xff, 0x61, 0xf2, 0x00, 0x15, 0xad] := by decide

/-- C2: on `(GET, /test, "")` the header maps `A ↦ b|C=d` and
`A ↦ b, C ↦ d` produce the SAME 16-character fingerprint — cache.go
`GenerateCacheKey` does not escape header names or values, so both inputs
hash the identical joined string, contradicting the claimed
collision-freedom (and the repository's own
`TestCacheKeyCollisionFix`). -/
theorem c2_generateCacheKey_collision :
    GenerateCacheKey "GET" "/test" "" [("A", "b|C=d")]
      = GenerateCacheKey "GET" "/test" "" [("A", "b"), ("C", "d")] := by
  decide

/-- C1: for the HEAD request of the repository's own consistency test
(`HEAD /api/status` with `Accept-Language: en-US`), the byte-stream
interceptor path fingerprints with the verbatim token `HEAD` while the
handler-wrapper path aliases HEAD to GET, so the two 16-character
fingerprints differ — the byte path does produce a key, but not the
handler path's key. -/
theorem c1_head_paths_diverge :
    (tryParseCacheKey ⟨"HEAD", "/api/status", "", [("Accept-Language", ["en-US"])]⟩).isSome
      = true ∧
    tryParseCacheKey ⟨"HEAD", "/api/status", "", [("Accept-Language", ["en-US"])]⟩
      ≠ some (createCacheKey ⟨"HEAD", "/api/status", "", [("Accept-Language", ["en-US"])]⟩) := by
  constructor
  · decide
  · decide

/-- C6: on a connection that has completed `Close`, `Read` does return the
end-of-stream error, but `Write` returns `(0, nil)` — NOT a closed-pipe
error: `tryServeCachedResponse` reports `(true, 0)` for a closed
connection and `Write` then returns the byte count with a `nil` error,
never reaching the `io.ErrClosedPipe` branch of
`writeAndBufferResponse`. -/
theorem c6_closed_read_write :
    (connRead (connClose NewCachingConnection) [72] (fun _ => none)).1
      = (0, some ConnError.eof) ∧
    (connWrite (connClose NewCachingConnection) (NewTTLCache cfgA none) [72] 0).n = 0 ∧
    (connWrite (connClose NewCachingConnection) (NewTTLCache cfgA none) [72] 0).err = none ∧
    (connWrite (connClose NewCachingConnection) (NewTTLCache cfgA none) [72] 0).wire = [] := by
  refine ⟨by decide, by decide, by decide, by decide⟩

/-- C4 counterexample: at the boundary instant `now = ExpiresAt` the entry
is returned (Go's `IsExpired` uses `After`, which is strict), so `Get`
yields an artifact whose expiration instant is NOT strictly in the future:
it equals the lookup instant. -/
theorem c4_boundary_counterexample :
    ((cacheB.Get "k" 5).1.isSome = true) ∧
    ((cacheB.Get "k" 5).1.map CacheEntry.expiresAt = some 5) := by
  refine ⟨by decide, by decide⟩

/-- C4 (amended): `Get` returns absent or an artifact whose expiration is
at or after the lookup instant (not strictly after it); and when the
stored artifact has expired (expiration strictly before the lookup
instant), `Get` removes it, decrements the byte total by its cost, records
a miss and returns absent. -/
theorem c4_get_expiry_boundary (c : TTLCache) (key : String) (now : Nat) :
    (∀ e, (c.Get key now).1 = some e → now ≤ e.expiresAt) ∧
    (∀ e, lookupEntry c.entries key = some e → now > e.expiresAt →
      (c.Get key now).1 = none ∧
      (c.Get key now).2.entries = eraseEntry c.entries key ∧
      (c.Get key now).2.currentMemoryBytes = u64sub c.currentMemoryBytes e.size ∧
      (c.Get key now).2.metrics = updMetrics CacheMetrics.RecordMiss c.metrics) := by
  unfold TTLCache.Get
  cases hl : lookupEntry c.entries key with
  | none =>
    refine ⟨fun e h => by simp at h, fun e h => by simp [hl] at h⟩
  | some e0 =>
    by_cases hexp : e0.IsExpired now
    · refine ⟨fun e h => by simp [hexp] at h, fun e h hnow => ?_⟩
      have he : e = e0 := (Option.some_injective _ h).symm
      subst he
      simp [hexp]
    · have hle : now ≤ e0.expiresAt := by
        unfold CacheEntry.IsExpired at hexp
        simpa using hexp
      refine ⟨fun e h => ?_, fun e h hnow => ?_⟩
      · simp only [hexp, if_neg, Bool.false_eq_true, if_false] at h
        have : e = { e0 with accessTime := now } := by
          simpa using h.symm
        rw [this]
        exact hle
      · have he : e = e0 := (Option.some_injective _ h).symm
        subst he
        exact absurd hle (by omega)

/-- C4 witness: an expired entry (`ExpiresAt = 5`, lookup at 6) is removed
with its cost subtracted. -/
theorem c4_get_expiry_boundary_witness :
    lookupEntry cacheB.entries "k" = some entryB ∧ 6 > entryB.expiresAt ∧
    (cacheB.Get "k" 6).1 = none ∧
    (cacheB.Get "k" 6).2.currentMemoryBytes = u64sub cacheB.currentMemoryBytes entryB.size :=
  ⟨by decide, by decide,
   ((c4_get_expiry_boundary cacheB "k" 6).2 entryB (by decide) (by decide)).1,
   ((c4_get_expiry_boundary cacheB "k" 6).2 entryB (by decide) (by decide)).2.2.1⟩

/-- Membership form of the status gate. -/
theorem isCacheableStatusCode_iff (s : Nat) :
    isCacheableStatusCode s = true ↔ s ∈ [200, 201, 300, 301, 302, 304, 307, 308, 410] := by
  simp [isCacheableStatusCode]

/-- Pointwise form of the excluded-type gate. -/
theorem isContentTypeExcluded_eq_false_iff (config : CacheConfig) (ct : String) :
    config.IsContentTypeExcluded ct = false ↔
      ∀ ex ∈ config.excludedTypes, strContains (toLowerS ct) (toLowerS ex) = false := by
  simp [CacheConfig.IsContentTypeExcluded, List.any_eq_false]

/-- Pointwise form of the HTML gate (the empty Content-Type early return
agrees with the pointwise reading, since no nonempty pattern occurs in the
empty string). -/
theorem isHTMLContentType_eq_false_iff (ct : String) :
    isHTMLContentType ct = false ↔
      ∀ t ∈ (["text/html", "application/xhtml+xml", "application/xhtml"] : List String),
        strContains (toLowerS ct) t = false := by
  unfold isHTMLContentType
  by_cases hct : ct == ""
  · have : ct = "" := by simpa using hct
    subst this
    simp only [if_pos, beq_self_eq_true]
    constructor
    · intro _ t ht
      simp only [List.mem_cons, List.mem_singleton] at ht
      rcases ht with rfl | rfl | rfl | h
      · decide
      · decide
      · decide
      · cases h
    · intro _
      trivial
  · simp only [hct, Bool.false_eq_true, if_false]
    simp [List.any_eq_false]

/-- The classifier decision as the conjunction of its four gates. -/
theorem shouldCache_eq_true_iff (config : CacheConfig) (response : List Nat)
    (headers : List (String × List String)) (statusCode : Nat) :
    ShouldCache config response headers statusCode = true ↔
      (isCacheableStatusCode statusCode = true ∧
       config.IsContentTypeExcluded (headerGet headers "Content-Type") = false ∧
       isHTMLContentType (headerGet headers "Content-Type") = false ∧
       response.length ≤ config.maxMemoryMB * 1024 * 1024 / 10) := by
  unfold ShouldCache IsHTMLContent
  by_cases h1 : isCacheableStatusCode statusCode <;>
    by_cases h2 : config.IsContentTypeExcluded (headerGet headers "Content-Type") <;>
      by_cases h3 : isHTMLContentType (headerGet headers "Content-Type") <;>
        by_cases h4 : response.length > config.maxMemoryMB * 1024 * 1024 / 10 <;>
          simp_all

/-- C9: the classifier admits a response exactly when its status is one of
the nine cacheable codes, its (lowercased) Content-Type contains no
configured excluded-type substring, it is not HTML — where HTML is decided
from the Content-Type header alone — and its body is at most a tenth of
the byte budget; and the decision depends on the body only through its
length, so a body beginning with `<html>` under a non-HTML Content-Type
changes nothing. -/
theorem c9_admission_iff (config : CacheConfig) (response : List Nat)
    (headers : List (String × List String)) (statusCode : Nat) :
    (ShouldCache config response headers statusCode = true ↔
      (statusCode ∈ [200, 201, 300, 301, 302, 304, 307, 308, 410] ∧
       (∀ ex ∈ config.excludedTypes,
         strContains (toLowerS (headerGet headers "Content-Type")) (toLowerS ex) = false) ∧
       (∀ t ∈ (["text/html", "application/xhtml+xml", "application/xhtml"] : List String),
         strContains (toLowerS (headerGet headers "Content-Type")) t = false) ∧
       response.length ≤ config.maxMemoryMB * 1024 * 1024 / 10)) ∧
    (∀ response₂ : List Nat, response₂.length = response.length →
      ShouldCache config response₂ headers statusCode
        = ShouldCache config response headers statusCode) := by
  constructor
  · rw [shouldCache_eq_true_iff, isCacheableStatusCode_iff,
      isContentTypeExcluded_eq_false_iff, isHTMLContentType_eq_false_iff]
  · intro r2 hlen
    unfold ShouldCache IsHTMLContent
    rw [hlen]

/-- C9 witness: a body that begins with `<html>` under Content-Type
`application/json` is classified exactly like any same-length body and is
admitted. -/
theorem c9_admission_iff_witness :
    (strBytes "<html>").length = (strBytes "cached").length ∧
    ShouldCache cfgA (strBytes "<html>") [("Content-Type", ["application/json"])] 200
      = ShouldCache cfgA (strBytes "cached") [("Content-Type", ["application/json"])] 200 ∧
    ShouldCache cfgA (strBytes "<html>") [("Content-Type", ["application/json"])] 200 = true :=
  ⟨by decide,
   (c9_admission_iff cfgA (strBytes "cached") [("Content-Type", ["application/json"])] 200).2
     (strBytes "<html>") (by decide),
   by decide⟩

/-- C5: on a cache hit in the interceptor's write path, the serialized
response placed on the wire is the fixed `HTTP/1.1 200 OK` status line (no
status was ever stored), every stored header field-value, the
`X-Cache-Status: HIT` and `X-Cache-Age` headers, a blank line and the
stored body; `Write` returns the caller's byte count with no error, and
the caller's bytes themselves never reach the wire. -/
theorem c5_hit_serialization (c : CachingConnection) (cache : TTLCache) (b : List Nat)
    (now : Nat) (entry : CacheEntry) (cache' : TTLCache)
    (hclosed : c.closed = false) (hkey : c.cacheKey ≠ "")
    (hhit : cache.Get c.cacheKey now = (some entry, cache')) :
    (connWrite c cache b now).n = b.length ∧
    (connWrite c cache b now).err = none ∧
    (connWrite c cache b now).wire =
      strBytes "HTTP/1.1 200 OK\r\n"
        ++ (entry.headers.map fun kv =>
             (kv.2.map fun v => strBytes (kv.1 ++ ": " ++ v ++ "\r\n")).flatten).flatten
        ++ strBytes "X-Cache-Status: HIT\r\n"
        ++ strBytes ("X-Cache-Age: " ++ Nat.repr ((now - entry.storeTime) / 1000000000) ++ "\r\n")
        ++ strBytes "\r\n"
        ++ entry.data := by
  have h1 : tryServeCachedResponse c cache b now =
      (((true, b.length), buildHTTPResponse entry now), { c with cacheKey := "" },
        { cache' with metrics := updMetrics CacheMetrics.RecordHit cache'.metrics }) := by
    unfold tryServeCachedResponse
    rw [hclosed]
    simp only [Bool.false_eq_true, if_false]
    rw [if_pos hkey, hhit]
  unfold connWrite
  rw [h1]
  exact ⟨rfl, rfl, rfl⟩

/-- C5 witness: a concrete hit (`connB` bound to `k`, `cacheB` holding a
live entry at instant 3) returns the caller's byte count with no error. -/
theorem c5_hit_serialization_witness :
    connB.closed = false ∧ connB.cacheKey ≠ "" ∧
    cacheB.Get "k" 3 = (some entryB3, cacheB3) ∧
    (connWrite connB cacheB [122] 3).n = 1 ∧
    (connWrite connB cacheB [122] 3).err = none :=
  ⟨by decide, by decide, by decide,
   (c5_hit_serialization connB cacheB [122] 3 entryB3 cacheB3
     (by decide) (by decide) (by decide)).1,
   (c5_hit_serialization connB cacheB [122] 3 entryB3 cacheB3
     (by decide) (by decide) (by decide)).2.1⟩

/-! ### Arithmetic and association-map lemmas -/

theorem U64_pos : 0 < U64 := by decide

theorem u64add_eq {a b : Nat} (h : a + b < U64) : u64add a b = a + b :=
  Nat.mod_eq_of_lt h

theorem u64sub_eq {a b : Nat} (hb : b ≤ a) (ha : a < U64) : u64sub a b = a - b := by
  unfold u64sub
  have hbu : b % U64 = b := Nat.mod_eq_of_lt (Nat.lt_of_le_of_lt hb ha)
  rw [hbu]
  have h1 : a + (U64 - b) = a - b + U64 := by
    have : b ≤ U64 := Nat.le_of_lt (Nat.lt_of_le_of_lt hb ha)
    omega
  rw [h1, Nat.add_mod_right]
  exact Nat.mod_eq_of_lt (by omega)

theorem u64sub_wrap {a b : Nat} (hab : a < b) (hb : b < U64) :
    u64sub a b = U64 - (b - a) := by
  unfold u64sub
  have hbu : b % U64 = b := Nat.mod_eq_of_lt hb
  rw [hbu]
  have h1 : a + (U64 - b) = U64 - (b - a) := by omega
  rw [h1]
  exact Nat.mod_eq_of_lt (by omega)

theorem sumSizes_nil : sumSizes [] = 0 := rfl

theorem sumSizes_cons (k : String) (e : CacheEntry) (m : EntryMap) :
    sumSizes ((k, e) :: m) = e.size + sumSizes m := by
  simp [sumSizes]

theorem sumSizes_append (m n : EntryMap) :
    sumSizes (m ++ n) = sumSizes m + sumSizes n := by
  simp [sumSizes]

theorem sumSizes_perm {m n : EntryMap} (h : m.Perm n) : sumSizes m = sumSizes n :=
  List.Perm.sum_eq (h.map _)

theorem lookup_some_mem {m : EntryMap} {k : String} {e : CacheEntry}
    (h : lookupEntry m k = some e) : (k, e) ∈ m := by
  unfold lookupEntry at h
  cases hf : m.find? (fun p => p.1 == k) with
  | none => rw [hf] at h; cases h
  | some p =>
    rw [hf] at h
    have hp : p.2 = e := by simpa using h
    have hk : p.1 = k := by
      have := List.find?_some hf
      simpa using this
    have hm := List.mem_of_find?_eq_some hf
    rw [← hk, ← hp]
    simpa using hm

theorem lookup_eq_none_of_not_mem {m : EntryMap} {k : String}
    (h : k ∉ keysOf m) : lookupEntry m k = none := by
  unfold lookupEntry
  cases hf : m.find? (fun p => p.1 == k) with
  | none => rfl
  | some p =>
    exfalso
    have hk : p.1 = k := by
      have := List.find?_some hf
      simpa using this
    have hm := List.mem_of_find?_eq_some hf
    exact h (hk ▸ List.mem_map_of_mem Prod.fst hm)

theorem mem_erase_subset {m : EntryMap} {k : String} {p : String × CacheEntry}
    (h : p ∈ eraseEntry m k) : p ∈ m :=
  List.mem_of_mem_filter h

theorem keys_erase_sublist (m : EntryMap) (k : String) :
    List.Sublist (keysOf (eraseEntry m k)) (keysOf m) :=
  (List.filter_sublist m).map Prod.fst

theorem nodup_keys_erase {m : EntryMap} (k : String) (h : (keysOf m).Nodup) :
    (keysOf (eraseEntry m k)).Nodup :=
  h.sublist (keys_erase_sublist m k)

theorem not_mem_keys_erase (m : EntryMap) (k : String) :
    k ∉ keysOf (eraseEntry m k) := by
  intro hmem
  unfold keysOf eraseEntry at hmem
  obtain ⟨p, hp, hpk⟩ := List.mem_map.mp hmem
  have := List.of_mem_filter hp
  simp [hpk] at this

theorem eraseEntry_of_not_mem {m : EntryMap} {k : String} (h : k ∉ keysOf m) :
    eraseEntry m k = m := by
  unfold eraseEntry
  apply List.filter_eq_self.mpr
  intro p hp
  have : p.1 ≠ k := fun hk => h (hk ▸ List.mem_map_of_mem Prod.fst hp)
  simpa using this

theorem erase_cons_self {k : String} {e : CacheEntry} {m : EntryMap}
    (h : k ∉ keysOf m) : eraseEntry ((k, e) :: m) k = m := by
  unfold eraseEntry
  rw [List.filter_cons]
  simp only [bne_self_eq_false, Bool.false_eq_true, if_false]
  exact eraseEntry_of_not_mem h

theorem erase_cons_ne {k k' : String} {e : CacheEntry} {m : EntryMap}
    (h : k' ≠ k) : eraseEntry ((k', e) :: m) k = (k', e) :: eraseEntry m k := by
  unfold eraseEntry
  rw [List.filter_cons]
  simp [h]

theorem sumSizes_erase {m : EntryMap} {k : String} {e : CacheEntry}
    (hnd : (keysOf m).Nodup) (h : lookupEntry m k = some e) :
    sumSizes (eraseEntry m k) + e.size = sumSizes m := by
  induction m with
  | nil => cases h
  | cons hd tl ih =>
    obtain ⟨k', e'⟩ := hd
    have hnd' : (keysOf tl).Nodup := (List.nodup_cons.mp hnd).2
    by_cases hk : k' = k
    · subst hk
      have he : e' = e := by
        unfold lookupEntry at h
        simp [List.find?_cons] at h
        exact h
      subst he
      have hknot : k' ∉ keysOf tl := (List.nodup_cons.mp hnd).1
      rw [erase_cons_self hknot, sumSizes_cons]
      omega
    · have hlook : lookupEntry tl k = some e := by
        unfold lookupEntry at h ⊢
        rw [List.find?_cons] at h
        simp only [show (k' == k) = false by simpa using hk] at h
        exact h
      rw [erase_cons_ne hk, sumSizes_cons, sumSizes_cons]
      have := ih hnd' hlook
      omega

theorem length_erase {m : EntryMap} {k : String} {e : CacheEntry}
    (hnd : (keysOf m).Nodup) (h : lookupEntry m k = some e) :
    (eraseEntry m k).length + 1 = m.length := by
  induction m with
  | nil => cases h
  | cons hd tl ih =>
    obtain ⟨k', e'⟩ := hd
    have hnd' : (keysOf tl).Nodup := (List.nodup_cons.mp hnd).2
    by_cases hk : k' = k
    · subst hk
      have hknot : k' ∉ keysOf tl := (List.nodup_cons.mp hnd).1
      rw [erase_cons_self hknot]
      simp
    · have hlook : lookupEntry tl k = some e := by
        unfold lookupEntry at h ⊢
        rw [List.find?_cons] at h
        simp only [show (k' == k) = false by simpa using hk] at h
        exact h
      rw [erase_cons_ne hk]
      simp only [List.length_cons]
      have := ih hnd' hlook
      omega

theorem size_le_sum {m : EntryMap} {k : String} {e : CacheEntry}
    (hnd : (keysOf m).Nodup) (h : lookupEntry m k = some e) :
    e.size ≤ sumSizes m := by
  have := sumSizes_erase hnd h
  omega

theorem lookup_setEntry_self (m : EntryMap) (k : String) (e : CacheEntry) :
    lookupEntry (setEntry m k e) k = some e := by
  unfold setEntry
  have hnot := not_mem_keys_erase m k
  unfold lookupEntry
  rw [List.find?_append]
  have h1 : (eraseEntry m k).find? (fun p => p.1 == k) = none := by
    have := lookup_eq_none_of_not_mem hnot
    unfold lookupEntry at this
    cases hf : (eraseEntry m k).find? (fun p => p.1 == k) with
    | none => rfl
    | some p => rw [hf] at this; cases this
  rw [h1]
  simp [List.find?]

theorem keys_setEntry (m : EntryMap) (k : String) (e : CacheEntry) :
    keysOf (setEntry m k e) = keysOf (eraseEntry m k) ++ [k] := by
  unfold setEntry keysOf
  simp

theorem nodup_keys_setEntry {m : EntryMap} (k : String) (e : CacheEntry)
    (hnd : (keysOf m).Nodup) : (keysOf (setEntry m k e)).Nodup := by
  rw [keys_setEntry]
  rw [List.nodup_append]
  refine ⟨nodup_keys_erase k hnd, List.nodup_singleton k, ?_⟩
  intro a ha hb
  have hb' : a = k := by simpa using hb
  exact not_mem_keys_erase m k (hb' ▸ ha)

theorem mem_setEntry {m : EntryMap} {k : String} {e : CacheEntry}
    {p : String × CacheEntry} (h : p ∈ setEntry m k e) : p ∈ m ∨ p = (k, e) := by
  unfold setEntry at h
  rcases List.mem_append.mp h with h1 | h2
  · exact Or.inl (mem_erase_subset h1)
  · right; simpa using h2

theorem sumSizes_setEntry_of_lookup {m : EntryMap} {k : String} {old : CacheEntry}
    (e : CacheEntry) (hnd : (keysOf m).Nodup) (h : lookupEntry m k = some old) :
    sumSizes (setEntry m k e) + old.size = sumSizes m + e.size := by
  unfold setEntry
  rw [sumSizes_append]
  have h2 := sumSizes_erase hnd h
  have h3 : sumSizes [(k, e)] = e.size := by simp [sumSizes]
  omega

theorem sumSizes_setEntry_of_none {m : EntryMap} {k : String}
    (e : CacheEntry) (h : lookupEntry m k = none) :
    sumSizes (setEntry m k e) = sumSizes m + e.size := by
  unfold setEntry
  have herase : eraseEntry m k = m := by
    apply eraseEntry_of_not_mem
    intro hk
    obtain ⟨p, hp, hpk⟩ := List.mem_map.mp hk
    unfold lookupEntry at h
    cases hf : m.find? (fun q => q.1 == k) with
    | none =>
      have := List.find?_eq_none.mp hf p hp
      simp [hpk] at this
    | some q => rw [hf] at h; cases h
  rw [herase, sumSizes_append]
  simp [sumSizes]

theorem length_setEntry_of_lookup {m : EntryMap} {k : String} {old : CacheEntry}
    (e : CacheEntry) (hnd : (keysOf m).Nodup) (h : lookupEntry m k = some old) :
    (setEntry m k e).length = m.length := by
  unfold setEntry
  rw [List.length_append]
  have := length_erase hnd h
  simp only [List.length_singleton]
  omega

theorem length_setEntry_of_none {m : EntryMap} {k : String}
    (e : CacheEntry) (h : lookupEntry m k = none) :
    (setEntry m k e).length = m.length + 1 := by
  unfold setEntry
  have herase : eraseEntry m k = m := by
    apply eraseEntry_of_not_mem
    intro hk
    obtain ⟨p, hp, hpk⟩ := List.mem_map.mp hk
    unfold lookupEntry at h
    cases hf : m.find? (fun q => q.1 == k) with
    | none =>
      have := List.find?_eq_none.mp hf p hp
      simp [hpk] at this
    | some q => rw [hf] at h; cases h
  rw [herase]
  simp

/-! ### Eviction-scan lemmas -/

instance : IsTotal (String × CacheEntry) leAccess :=
  ⟨fun a b => Nat.le_total a.2.accessTime b.2.accessTime⟩

instance : IsTrans (String × CacheEntry) leAccess :=
  ⟨fun _ _ _ hab hbc => Nat.le_trans hab hbc⟩

theorem evictScan_split (β : Nat) :
    ∀ (l : EntryMap) (acc : Nat),
      (evictScan β acc l).1 ++ (evictScan β acc l).2.1 = l := by
  intro l
  induction l with
  | nil => intro acc; rfl
  | cons e rest ih =>
    intro acc
    unfold evictScan
    by_cases hb : β ≤ u64add acc e.2.size
    · simp [hb]
    · simp only [hb, if_false]
      have := ih (u64add acc e.2.size)
      simp only [List.cons_append]
      rw [this]

theorem evictScan_freed (β : Nat) :
    ∀ (l : EntryMap) (acc : Nat), acc + sumSizes l < U64 →
      (evictScan β acc l).2.2 = acc + sumSizes (evictScan β acc l).1 := by
  intro l
  induction l with
  | nil => intro acc _; simp [evictScan, sumSizes_nil]
  | cons e rest ih =>
    intro acc hlt
    obtain ⟨k0, e0⟩ := e
    have hcons : sumSizes ((k0, e0) :: rest) = e0.size + sumSizes rest :=
      sumSizes_cons k0 e0 rest
    have hadd : u64add acc e0.size = acc + e0.size := by
      apply u64add_eq
      omega
    unfold evictScan
    by_cases hb : β ≤ u64add acc e0.size
    · simp only [hb, if_true]
      rw [hadd]
      have : sumSizes [(k0, e0)] = e0.size := by simp [sumSizes]
      rw [this]
    · simp only [hb, if_false]
      rw [hadd]
      have ih2 := ih (acc + e0.size) (by omega)
      rw [ih2, sumSizes_cons]
      omega

theorem evictScan_stop (β : Nat) :
    ∀ (l : EntryMap) (acc : Nat),
      (evictScan β acc l).2.1 ≠ [] → β ≤ (evictScan β acc l).2.2 := by
  intro l
  induction l with
  | nil => intro acc h; simp [evictScan] at h
  | cons e rest ih =>
    intro acc h
    unfold evictScan at h ⊢
    by_cases hb : β ≤ u64add acc e.2.size
    · simp only [hb, if_true] at h ⊢
    · simp only [hb, if_false] at h ⊢
      exact ih (u64add acc e.2.size) h

theorem evictScan_all (β : Nat) :
    ∀ (l : EntryMap) (acc : Nat), acc + sumSizes l < β → acc + sumSizes l < U64 →
      evictScan β acc l = (l, [], acc + sumSizes l) := by
  intro l
  induction l with
  | nil => intro acc _ _; simp [evictScan, sumSizes_nil]
  | cons e rest ih =>
    intro acc hβ hu
    obtain ⟨k0, e0⟩ := e
    have hcons : sumSizes ((k0, e0) :: rest) = e0.size + sumSizes rest :=
      sumSizes_cons k0 e0 rest
    have hadd : u64add acc e0.size = acc + e0.size := by
      apply u64add_eq
      omega
    unfold evictScan
    have hb : ¬ β ≤ u64add acc e0.size := by
      rw [hadd]
      omega
    simp only [hb, if_false]
    have ih2 := ih (u64add acc e0.size) (by rw [hadd]; omega) (by rw [hadd]; omega)
    rw [ih2, hadd]
    have : acc + e0.size + sumSizes rest = acc + sumSizes ((k0, e0) :: rest) := by
      rw [hcons]; omega
    rw [this]

theorem evictScan_ev_ne_nil (β acc : Nat) (l : EntryMap) (h : l ≠ []) :
    (evictScan β acc l).1 ≠ [] := by
  cases l with
  | nil => exact absurd rfl h
  | cons e rest =>
    unfold evictScan
    by_cases hb : β ≤ u64add acc e.2.size
    · simp [hb]
    · simp [hb]

theorem evictScan_min (β : Nat) :
    ∀ (l : EntryMap) (acc : Nat) (p : EntryMap),
      p.IsPrefix (evictScan β acc l).1 → p ≠ (evictScan β acc l).1 →
      acc + sumSizes l < U64 →
      acc + sumSizes p < β ∨ p = [] := by
  intro l
  induction l with
  | nil =>
    intro acc p hp hne _
    simp [evictScan] at hp
    exact Or.inr hp
  | cons e rest ih =>
    intro acc p hp hne hu
    obtain ⟨k0, e0⟩ := e
    have hcons : sumSizes ((k0, e0) :: rest) = e0.size + sumSizes rest :=
      sumSizes_cons k0 e0 rest
    have hadd : u64add acc e0.size = acc + e0.size := by
      apply u64add_eq
      omega
    unfold evictScan at hp hne
    by_cases hb : β ≤ u64add acc e0.size
    · simp only [hb, if_true] at hp hne
      cases p with
      | nil => exact Or.inr rfl
      | cons q qs =>
        exfalso
        obtain ⟨t, ht⟩ := hp
        rw [List.cons_append] at ht
        injection ht with h1 h2
        obtain ⟨hqs, _⟩ := List.append_eq_nil.mp h2
        exact hne (by rw [h1, hqs])
    · simp only [hb, if_false] at hp hne
      cases p with
      | nil => exact Or.inr rfl
      | cons q qs =>
        have hq : q = (k0, e0) ∧ qs.IsPrefix (evictScan β (u64add acc e0.size) rest).1 := by
          obtain ⟨t, ht⟩ := hp
          simp only [List.cons_append] at ht
          injection ht with h1 h2
          exact ⟨h1, ⟨t, h2⟩⟩
      -- continue with the tail
        obtain ⟨hq1, hq2⟩ := hq
        have hne2 : qs ≠ (evictScan β (u64add acc e0.size) rest).1 := by
          intro hcontra
          apply hne
          rw [hq1, hcontra]
        have := ih (u64add acc e0.size) qs hq2 hne2 (by rw [hadd]; omega)
        rcases this with h1 | h1
        · left
          rw [hq1, sumSizes_cons]
          rw [hadd] at h1
          omega
        · left
          rw [hq1, h1, sumSizes_cons, sumSizes_nil]
          rw [hadd] at hb
          omega

/-! ### Store invariant preservation -/

theorem evictLRU_eq (c : TTLCache) (β : Nat) (hne : c.entries ≠ []) :
    c.evictLRU β =
      ({ c with
          entries := (evictScan β 0 (c.entries.insertionSort leAccess)).2.1,
          currentMemoryBytes :=
            u64sub c.currentMemoryBytes
              (evictScan β 0 (c.entries.insertionSort leAccess)).2.2 },
       (evictScan β 0 (c.entries.insertionSort leAccess)).1) := by
  unfold TTLCache.evictLRU
  rw [if_neg (by simpa using hne)]

theorem maxB_lt_U64 {cfg : CacheConfig} (hB : maxMemoryBytes cfg ≤ 2 ^ 62) :
    maxMemoryBytes cfg < U64 :=
  lt_of_le_of_lt hB (by norm_num [U64])

theorem WFB_checkMemoryLimits (cfg : CacheConfig) (c : TTLCache) (esize : Nat)
    (hwf : WFB cfg c) (hE : 1 ≤ cfg.maxEntries) (hB : maxMemoryBytes cfg ≤ 2 ^ 62)
    (hszB : esize ≤ maxMemoryBytes cfg) :
    (c.checkMemoryLimits esize).1.config = cfg ∧
    (c.checkMemoryLimits esize).1.currentMemoryBytes
      = sumSizes (c.checkMemoryLimits esize).1.entries ∧
    (keysOf (c.checkMemoryLimits esize).1.entries).Nodup ∧
    (∀ p ∈ (c.checkMemoryLimits esize).1.entries, p.2.size ≤ maxMemoryBytes cfg) ∧
    sumSizes (c.checkMemoryLimits esize).1.entries + esize ≤ maxMemoryBytes cfg ∧
    (c.checkMemoryLimits esize).1.entries.length < cfg.maxEntries := by
  obtain ⟨hcfg, hexact, hnd, hszs, hsum, hcnt⟩ := hwf
  have hU : maxMemoryBytes cfg < U64 := maxB_lt_U64 hB
  have hU64 : U64 = 18446744073709551616 := rfl
  have hcurB : c.currentMemoryBytes ≤ maxMemoryBytes cfg := by rw [hexact]; exact hsum
  unfold TTLCache.checkMemoryLimits
  rw [hcfg]
  by_cases htrig :
      u64add c.currentMemoryBytes esize > maxMemoryBytes cfg ∨
        c.entries.length ≥ cfg.maxEntries
  case neg =>
    rw [if_neg htrig]
    push_neg at htrig
    obtain ⟨hmem, hcount⟩ := htrig
    have hadd : u64add c.currentMemoryBytes esize = c.currentMemoryBytes + esize :=
      u64add_eq (by omega)
    rw [hadd] at hmem
    refine ⟨hcfg, hexact, hnd, fun p hp => hszs p hp, ?_, hcount⟩
    show sumSizes c.entries + esize ≤ maxMemoryBytes cfg
    omega
  case pos =>
    rw [if_pos htrig]
    by_cases hne : c.entries = []
    · have hLRU : ∀ β', c.evictLRU β' = (c, []) := by
        intro β'
        unfold TTLCache.evictLRU
        rw [if_pos (by simpa using hne)]
      rw [hLRU]
      have hsum0 : sumSizes c.entries = 0 := by rw [hne]; rfl
      refine ⟨hcfg, hexact, hnd, fun p hp => hszs p hp, ?_, ?_⟩
      · show sumSizes c.entries + esize ≤ maxMemoryBytes cfg
        omega
      · show c.entries.length < cfg.maxEntries
        rw [hne]
        simpa using hE
    · rw [evictLRU_eq c _ hne]
      set sorted := c.entries.insertionSort leAccess with hsorted
      set β := u64add (u64sub (u64add c.currentMemoryBytes esize) (maxMemoryBytes cfg)) esize
        with hβ
      have hperm : sorted.Perm c.entries := List.perm_insertionSort leAccess c.entries
      have hsums : sumSizes sorted = sumSizes c.entries := sumSizes_perm hperm
      have hsortU : 0 + sumSizes sorted < U64 := by omega
      have hsplit := evictScan_split β sorted 0
      have hfreed := evictScan_freed β sorted 0 hsortU
      have hsumsplit : sumSizes (evictScan β 0 sorted).1
          + sumSizes (evictScan β 0 sorted).2.1 = sumSizes sorted := by
        conv_rhs => rw [← hsplit]
        rw [sumSizes_append]
      have hfle : (evictScan β 0 sorted).2.2 ≤ sumSizes c.entries := by omega
      have hmem' : u64sub c.currentMemoryBytes (evictScan β 0 sorted).2.2
          = sumSizes (evictScan β 0 sorted).2.1 := by
        rw [u64sub_eq (by omega) (by omega), hexact]
        omega
      have hsurv_sub : List.Sublist (evictScan β 0 sorted).2.1 sorted := by
        have h0 := List.sublist_append_right (evictScan β 0 sorted).1 (evictScan β 0 sorted).2.1
        rw [hsplit] at h0
        exact h0
      have hmemsub : ∀ p ∈ (evictScan β 0 sorted).2.1, p ∈ c.entries := by
        intro p hp
        exact hperm.mem_iff.mp (hsurv_sub.mem hp)
      have hndsurv : (keysOf (evictScan β 0 sorted).2.1).Nodup := by
        have hndsorted : (keysOf sorted).Nodup :=
          ((hperm.map Prod.fst).nodup_iff).mpr hnd
        exact hndsorted.sublist (hsurv_sub.map Prod.fst)
      have hlen : (evictScan β 0 sorted).1.length + (evictScan β 0 sorted).2.1.length
          = c.entries.length := by
        have := congrArg List.length hsplit
        simp only [List.length_append] at this
        rw [this, hperm.length_eq]
      have hevne : (evictScan β 0 sorted).1 ≠ [] := by
        apply evictScan_ev_ne_nil
        intro hc
        apply hne
        have hl := hperm.length_eq
        rw [hc] at hl
        simpa [List.length_eq_zero] using hl.symm
      have hevlen : 1 ≤ (evictScan β 0 sorted).1.length :=
        Nat.one_le_iff_ne_zero.mpr (by simpa [List.length_eq_zero] using hevne)
      refine ⟨hcfg, hmem', hndsurv, fun p hp => hszs p (hmemsub p hp), ?_, ?_⟩
      · show sumSizes (evictScan β 0 sorted).2.1 + esize ≤ maxMemoryBytes cfg
        by_cases hmem2 : c.currentMemoryBytes + esize ≤ maxMemoryBytes cfg
        · omega
        · push_neg at hmem2
          have haddU : u64add c.currentMemoryBytes esize = c.currentMemoryBytes + esize :=
            u64add_eq (by omega)
          have hsubU : u64sub (c.currentMemoryBytes + esize) (maxMemoryBytes cfg)
              = c.currentMemoryBytes + esize - maxMemoryBytes cfg :=
            u64sub_eq (by omega) (by omega)
          have hβval : β = c.currentMemoryBytes + esize - maxMemoryBytes cfg + esize := by
            rw [hβ, haddU, hsubU]
            exact u64add_eq (by omega)
          by_cases hsurv : (evictScan β 0 sorted).2.1 = []
          · rw [hsurv]
            simp only [sumSizes_nil]
            omega
          · have hstop := evictScan_stop β sorted 0 hsurv
            omega
      · show (evictScan β 0 sorted).2.1.length < cfg.maxEntries
        omega

theorem WFB_store (cfg : CacheConfig) (c1 : TTLCache) (key : String) (entry : CacheEntry)
    (h1 : c1.config = cfg)
    (h2 : c1.currentMemoryBytes = sumSizes c1.entries)
    (h3 : (keysOf c1.entries).Nodup)
    (h4 : ∀ p ∈ c1.entries, p.2.size ≤ maxMemoryBytes cfg)
    (h5 : sumSizes c1.entries + entry.size ≤ maxMemoryBytes cfg)
    (h6 : c1.entries.length < cfg.maxEntries)
    (hB : maxMemoryBytes cfg ≤ 2 ^ 62) :
    WFB cfg ((c1.removeExistingEntry key).storeCacheEntry key entry) := by
  have hU64 : U64 = 18446744073709551616 := rfl
  have hU : maxMemoryBytes cfg < U64 := maxB_lt_U64 hB
  unfold TTLCache.removeExistingEntry TTLCache.storeCacheEntry
  cases hl : lookupEntry c1.entries key with
  | none =>
    have hset := sumSizes_setEntry_of_none entry hl
    refine ⟨h1, ?_, nodup_keys_setEntry key entry h3, ?_, ?_, ?_⟩
    · show u64add c1.currentMemoryBytes entry.size = sumSizes (setEntry c1.entries key entry)
      rw [u64add_eq (by omega)]
      omega
    · intro p hp
      rcases mem_setEntry hp with hmem | heq
      · exact h4 p hmem
      · rw [heq]
        show entry.size ≤ maxMemoryBytes cfg
        omega
    · show sumSizes (setEntry c1.entries key entry) ≤ maxMemoryBytes cfg
      omega
    · show (setEntry c1.entries key entry).length ≤ cfg.maxEntries
      rw [length_setEntry_of_none entry hl]
      omega
  | some old =>
    have holdsum := size_le_sum h3 hl
    have hset := sumSizes_setEntry_of_lookup entry h3 hl
    refine ⟨h1, ?_, nodup_keys_setEntry key entry h3, ?_, ?_, ?_⟩
    · show u64add (u64sub c1.currentMemoryBytes old.size) entry.size
        = sumSizes (setEntry c1.entries key entry)
      rw [u64sub_eq (by omega) (by omega), u64add_eq (by omega)]
      omega
    · intro p hp
      rcases mem_setEntry hp with hmem | heq
      · exact h4 p hmem
      · rw [heq]
        show entry.size ≤ maxMemoryBytes cfg
        omega
    · show sumSizes (setEntry c1.entries key entry) ≤ maxMemoryBytes cfg
      omega
    · show (setEntry c1.entries key entry).length ≤ cfg.maxEntries
      rw [length_setEntry_of_lookup entry h3 hl]
      omega

theorem set_unfold (c : TTLCache) (key : String) (data : List Nat)
    (headers : List (String × List String)) (ttl now : Nat) :
    c.Set key data headers ttl now =
      (((c.checkMemoryLimits (createCacheEntry data headers ttl now).size).1).removeExistingEntry
          key).storeCacheEntry key (createCacheEntry data headers ttl now) := by
  unfold TTLCache.Set TTLCache.setWithEvictions
  show (match c.checkMemoryLimits (createCacheEntry data headers ttl now).size with
        | (c1, ev) =>
          ((c1.removeExistingEntry key).storeCacheEntry key
            (createCacheEntry data headers ttl now), ev)).1 = _
  cases h : c.checkMemoryLimits (createCacheEntry data headers ttl now).size with
  | mk c1 ev => rfl

theorem WFB_set (cfg : CacheConfig) (c : TTLCache) (key : String) (data : List Nat)
    (headers : List (String × List String)) (ttl now : Nat)
    (hwf : WFB cfg c) (hE : 1 ≤ cfg.maxEntries) (hB : maxMemoryBytes cfg ≤ 2 ^ 62)
    (hsz : data.length + calculateHeaderSize headers ≤ maxMemoryBytes cfg) :
    WFB cfg (c.Set key data headers ttl now) := by
  rw [set_unfold]
  have hszB : (createCacheEntry data headers ttl now).size ≤ maxMemoryBytes cfg := hsz
  obtain ⟨a1, a2, a3, a4, a5, a6⟩ :=
    WFB_checkMemoryLimits cfg c (createCacheEntry data headers ttl now).size hwf hE hB hszB
  exact WFB_store cfg _ key _ a1 a2 a3 a4 a5 a6 hB

theorem WFB_delete (cfg : CacheConfig) (c : TTLCache) (key : String)
    (hwf : WFB cfg c) (hB : maxMemoryBytes cfg ≤ 2 ^ 62) :
    WFB cfg (c.Delete key).1 := by
  obtain ⟨hcfg, hexact, hnd, hszs, hsum, hcnt⟩ := hwf
  have hU64 : U64 = 18446744073709551616 := rfl
  have hU : maxMemoryBytes cfg < U64 := maxB_lt_U64 hB
  unfold TTLCache.Delete
  cases hl : lookupEntry c.entries key with
  | none => exact ⟨hcfg, hexact, hnd, hszs, hsum, hcnt⟩
  | some e =>
    have hle := size_le_sum hnd hl
    have herase := sumSizes_erase hnd hl
    have hlen := length_erase hnd hl
    refine ⟨hcfg, ?_, nodup_keys_erase key hnd,
      fun p hp => hszs p (mem_erase_subset hp), ?_, ?_⟩
    · show u64sub c.currentMemoryBytes e.size = sumSizes (eraseEntry c.entries key)
      rw [u64sub_eq (by omega) (by omega)]
      omega
    · show sumSizes (eraseEntry c.entries key) ≤ maxMemoryBytes cfg
      omega
    · show (eraseEntry c.entries key).length ≤ cfg.maxEntries
      omega

theorem WFB_clear (cfg : CacheConfig) (c : TTLCache) (hwf : WFB cfg c) :
    WFB cfg c.Clear := by
  obtain ⟨hcfg, _, _, _, _, _⟩ := hwf
  exact ⟨hcfg, rfl, List.nodup_nil, fun p hp => absurd hp (List.not_mem_nil p),
    Nat.zero_le _, Nat.zero_le _⟩

theorem foldl_u64add_eq :
    ∀ (l : List Nat) (acc : Nat), acc + l.sum < U64 → l.foldl u64add acc = acc + l.sum := by
  intro l
  induction l with
  | nil => intro acc _; simp
  | cons x xs ih =>
    intro acc h
    rw [List.foldl_cons]
    have hx : u64add acc x = acc + x := u64add_eq (by simp [List.sum_cons] at h; omega)
    rw [hx, ih (acc + x) (by simp [List.sum_cons] at h ⊢; omega)]
    simp [List.sum_cons]
    omega

theorem sumSizes_filter_not (m : EntryMap) (p : String × CacheEntry → Bool) :
    sumSizes (m.filter p) + sumSizes (m.filter fun x => ! p x) = sumSizes m := by
  induction m with
  | nil => rfl
  | cons e rest ih =>
    rw [List.filter_cons, List.filter_cons]
    obtain ⟨k0, e0⟩ := e
    by_cases hp : p (k0, e0)
    · simp only [hp, if_true, Bool.not_true, Bool.false_eq_true, if_false]
      rw [sumSizes_cons, sumSizes_cons]
      omega
    · simp only [hp, Bool.false_eq_true, if_false, Bool.not_false, if_true]
      rw [sumSizes_cons, sumSizes_cons]
      have := ih
      omega

theorem length_filter_le' (m : EntryMap) (p : String × CacheEntry → Bool) :
    (m.filter p).length ≤ m.length :=
  List.length_filter_le p m

theorem WFB_cleanup (cfg : CacheConfig) (c : TTLCache) (now : Nat)
    (hwf : WFB cfg c) (hB : maxMemoryBytes cfg ≤ 2 ^ 62) :
    WFB cfg (c.cleanupExpired now) := by
  obtain ⟨hcfg, hexact, hnd, hszs, hsum, hcnt⟩ := hwf
  have hU64 : U64 = 18446744073709551616 := rfl
  have hU : maxMemoryBytes cfg < U64 := maxB_lt_U64 hB
  unfold TTLCache.cleanupExpired
  have hpred : (fun p : String × CacheEntry => decide (¬ now > p.2.expiresAt))
      = (fun p : String × CacheEntry => ! decide (now > p.2.expiresAt)) := by
    funext q
    exact decide_not
  have hpart := sumSizes_filter_not c.entries (fun p => decide (now > p.2.expiresAt))
  have hsummap : ((c.entries.filter (fun p => decide (now > p.2.expiresAt))).map
      (fun p => p.2.size)).sum
      = sumSizes (c.entries.filter (fun p => decide (now > p.2.expiresAt))) := rfl
  have hfreed : ((c.entries.filter (fun p => decide (now > p.2.expiresAt))).map
      (fun p => p.2.size)).foldl u64add 0
      = sumSizes (c.entries.filter (fun p => decide (now > p.2.expiresAt))) := by
    rw [foldl_u64add_eq _ 0 (by rw [hsummap]; omega)]
    rw [hsummap]
    omega
  refine ⟨hcfg, ?_, ?_, ?_, ?_, ?_⟩
  · show u64sub c.currentMemoryBytes
        (((c.entries.filter (fun p => decide (now > p.2.expiresAt))).map
          (fun p => p.2.size)).foldl u64add 0)
      = sumSizes (c.entries.filter fun p => decide (¬ now > p.2.expiresAt))
    rw [hfreed, u64sub_eq (by omega) (by omega), hpred]
    omega
  · show (keysOf (c.entries.filter fun p => decide (¬ now > p.2.expiresAt))).Nodup
    exact hnd.sublist ((List.filter_sublist c.entries).map Prod.fst)
  · intro p hp
    exact hszs p (List.mem_of_mem_filter hp)
  · show sumSizes (c.entries.filter fun p => decide (¬ now > p.2.expiresAt))
      ≤ maxMemoryBytes cfg
    rw [hpred]
    omega
  · show (c.entries.filter fun p => decide (¬ now > p.2.expiresAt)).length ≤ cfg.maxEntries
    exact le_trans (length_filter_le' _ _) hcnt

theorem WFB_get (cfg : CacheConfig) (c : TTLCache) (key : String) (now : Nat)
    (hwf : WFB cfg c) (hB : maxMemoryBytes cfg ≤ 2 ^ 62) :
    WFB cfg (c.Get key now).2 := by
  obtain ⟨hcfg, hexact, hnd, hszs, hsum, hcnt⟩ := hwf
  have hU64 : U64 = 18446744073709551616 := rfl
  have hU : maxMemoryBytes cfg < U64 := maxB_lt_U64 hB
  unfold TTLCache.Get
  cases hl : lookupEntry c.entries key with
  | none => exact ⟨hcfg, hexact, hnd, hszs, hsum, hcnt⟩
  | some e =>
    by_cases hexp : e.IsExpired now
    · simp only [hexp, if_true]
      have hle := size_le_sum hnd hl
      have herase := sumSizes_erase hnd hl
      have hlen := length_erase hnd hl
      refine ⟨hcfg, ?_, nodup_keys_erase key hnd,
        fun p hp => hszs p (mem_erase_subset hp), ?_, ?_⟩
      · show u64sub c.currentMemoryBytes e.size = sumSizes (eraseEntry c.entries key)
        rw [u64sub_eq (by omega) (by omega)]
        omega
      · show sumSizes (eraseEntry c.entries key) ≤ maxMemoryBytes cfg
        omega
      · show (eraseEntry c.entries key).length ≤ cfg.maxEntries
        omega
    · simp only [hexp, Bool.false_eq_true, if_false]
      have hsz' : ({ e with accessTime := now } : CacheEntry).size = e.size := rfl
      have hset := sumSizes_setEntry_of_lookup ({ e with accessTime := now }) hnd hl
      have hlen := length_setEntry_of_lookup ({ e with accessTime := now }) hnd hl
      refine ⟨hcfg, ?_, nodup_keys_setEntry key _ hnd, ?_, ?_, ?_⟩
      · show c.currentMemoryBytes = sumSizes (setEntry c.entries key { e with accessTime := now })
        omega
      · intro p hp
        rcases mem_setEntry hp with hmem | heq
        · exact hszs p hmem
        · rw [heq]
          have := size_le_sum hnd hl
          show ({ e with accessTime := now } : CacheEntry).size ≤ maxMemoryBytes cfg
          omega
      · show sumSizes (setEntry c.entries key { e with accessTime := now }) ≤ maxMemoryBytes cfg
        omega
      · show (setEntry c.entries key { e with accessTime := now }).length ≤ cfg.maxEntries
        omega

/-- A minimally provisioned configuration: 1 MiB byte budget, 10-entry cap. -/
def cfgSmall : CacheConfig := ⟨100, [], 1, 10, []⟩

/-- An empty store under `cfgSmall`. -/
def cacheSmall : TTLCache := ⟨[], cfgSmall, none, 0⟩

/-- Any Set of a body one byte over the 1 MiB budget on the empty small
store leaves the byte total above the budget. -/
theorem oversized_set_exceeds_budget (data : List Nat) (hlen : data.length = 1048577) :
    (cacheSmall.Set "k" data [] 100 0).currentMemoryBytes
      > maxMemoryBytes cacheSmall.config := by
  have hsz : (createCacheEntry data [] 100 0).size = 1048577 := by
    show data.length + calculateHeaderSize [] = 1048577
    rw [hlen]
    rfl
  rw [set_unfold, hsz]
  have hchk : cacheSmall.checkMemoryLimits 1048577 = (cacheSmall, []) := by decide
  rw [hchk]
  show ((cacheSmall.removeExistingEntry "k").storeCacheEntry "k"
      (createCacheEntry data [] 100 0)).currentMemoryBytes
    > maxMemoryBytes cacheSmall.config
  have hrem : cacheSmall.removeExistingEntry "k" = cacheSmall := by decide
  rw [hrem]
  show u64add cacheSmall.currentMemoryBytes (createCacheEntry data [] 100 0).size
    > maxMemoryBytes cacheSmall.config
  rw [hsz]
  decide

/-- C3 counterexample: a `Set` whose entry costs one byte more than the
whole byte budget (1 MiB) leaves the byte total above the budget — the
store empties (here it is already empty), the entry is inserted anyway,
and no bound is restored. -/
theorem c3_oversized_set_counterexample :
    (cacheSmall.Set "k" (List.replicate 1048577 0) [] 100 0).currentMemoryBytes
      > maxMemoryBytes cacheSmall.config :=
  oversized_set_exceeds_budget (List.replicate 1048577 0) (List.length_replicate 1048577 0)

/-- C3 (amended): after every completed mutating store operation (Set,
Delete, Clear, expiration removal by the sweep or by Get) on a well-formed
store, the entry count is at most the configured entry cap, and the byte
total is at most the configured byte budget provided the inserted entry's
cost (data length plus header size) is itself at most the budget — a Set
whose single entry exceeds the budget leaves the byte total above it. -/
theorem c3_bounds_after_mutators (cfg : CacheConfig) (c : TTLCache)
    (hwf : WFB cfg c) (hE : 1 ≤ cfg.maxEntries) (hB : maxMemoryBytes cfg ≤ 2 ^ 62) :
    (∀ key data headers ttl now,
      data.length + calculateHeaderSize headers ≤ maxMemoryBytes cfg →
      (c.Set key data headers ttl now).currentMemoryBytes ≤ maxMemoryBytes cfg ∧
      (c.Set key data headers ttl now).entries.length ≤ cfg.maxEntries) ∧
    (∀ key, (c.Delete key).1.currentMemoryBytes ≤ maxMemoryBytes cfg ∧
      (c.Delete key).1.entries.length ≤ cfg.maxEntries) ∧
    (c.Clear.currentMemoryBytes ≤ maxMemoryBytes cfg ∧
      c.Clear.entries.length ≤ cfg.maxEntries) ∧
    (∀ now, (c.cleanupExpired now).currentMemoryBytes ≤ maxMemoryBytes cfg ∧
      (c.cleanupExpired now).entries.length ≤ cfg.maxEntries) ∧
    (∀ key now, (c.Get key now).2.currentMemoryBytes ≤ maxMemoryBytes cfg ∧
      (c.Get key now).2.entries.length ≤ cfg.maxEntries) := by
  refine ⟨?_, ?_, ?_, ?_, ?_⟩
  · intro key data headers ttl now hsz
    obtain ⟨_, h2, _, _, h5, h6⟩ := WFB_set cfg c key data headers ttl now hwf hE hB hsz
    exact ⟨by rw [h2]; exact h5, h6⟩
  · intro key
    obtain ⟨_, h2, _, _, h5, h6⟩ := WFB_delete cfg c key hwf hB
    exact ⟨by rw [h2]; exact h5, h6⟩
  · obtain ⟨_, h2, _, _, h5, h6⟩ := WFB_clear cfg c hwf
    exact ⟨by rw [h2]; exact h5, h6⟩
  · intro now
    obtain ⟨_, h2, _, _, h5, h6⟩ := WFB_cleanup cfg c now hwf hB
    exact ⟨by rw [h2]; exact h5, h6⟩
  · intro key now
    obtain ⟨_, h2, _, _, h5, h6⟩ := WFB_get cfg c key now hwf hB
    exact ⟨by rw [h2]; exact h5, h6⟩

/-- C3 witness: a well-formed one-entry store under the default
configuration keeps both bounds after a small `Set`. -/
theorem c3_bounds_after_mutators_witness :
    WFB cfgA cacheB ∧ 1 ≤ cfgA.maxEntries ∧ maxMemoryBytes cfgA ≤ 2 ^ 62 ∧
    (3 + calculateHeaderSize [] ≤ maxMemoryBytes cfgA) ∧
    (cacheB.Set "k2" [1, 2, 3] [] 100 7).currentMemoryBytes ≤ maxMemoryBytes cfgA ∧
    (cacheB.Set "k2" [1, 2, 3] [] 100 7).entries.length ≤ cfgA.maxEntries :=
  ⟨by decide, by decide, by decide, by decide,
   ((c3_bounds_after_mutators cfgA cacheB (by decide) (by decide) (by decide)).1
     "k2" [1, 2, 3] [] 100 7 (by decide)).1,
   ((c3_bounds_after_mutators cfgA cacheB (by decide) (by decide) (by decide)).1
     "k2" [1, 2, 3] [] 100 7 (by decide)).2⟩

/-! ### The uint64 wraparound in checkMemoryLimits (C10) -/

theorem checkMemoryLimits_pos (c : TTLCache) (esize : Nat)
    (htrig : u64add c.currentMemoryBytes esize > maxMemoryBytes c.config ∨
      c.entries.length ≥ c.config.maxEntries)
    (hne : c.entries ≠ []) :
    c.checkMemoryLimits esize =
      ({ c with
          entries :=
            (evictScan (u64add (u64sub (u64add c.currentMemoryBytes esize)
              (maxMemoryBytes c.config)) esize) 0 (c.entries.insertionSort leAccess)).2.1,
          currentMemoryBytes :=
            u64sub c.currentMemoryBytes
              (evictScan (u64add (u64sub (u64add c.currentMemoryBytes esize)
                (maxMemoryBytes c.config)) esize) 0 (c.entries.insertionSort leAccess)).2.2,
          metrics :=
            updMetrics
              (iterateMetric CacheMetrics.RecordEviction
                (evictScan (u64add (u64sub (u64add c.currentMemoryBytes esize)
                  (maxMemoryBytes c.config)) esize) 0
                  (c.entries.insertionSort leAccess)).1.length)
              c.metrics },
        (evictScan (u64add (u64sub (u64add c.currentMemoryBytes esize)
          (maxMemoryBytes c.config)) esize) 0 (c.entries.insertionSort leAccess)).1) := by
  unfold TTLCache.checkMemoryLimits
  rw [if_pos htrig, evictLRU_eq c _ hne]

theorem checkMemoryLimits_entries_empty (c : TTLCache) (esize : Nat)
    (hne : c.entries = []) :
    (c.checkMemoryLimits esize).1.entries = [] ∧ (c.checkMemoryLimits esize).2 = [] := by
  unfold TTLCache.checkMemoryLimits
  by_cases htrig : u64add c.currentMemoryBytes esize > maxMemoryBytes c.config ∨
      c.entries.length ≥ c.config.maxEntries
  · rw [if_pos htrig]
    have hLRU : ∀ b, c.evictLRU b = (c, []) := fun b => by
      unfold TTLCache.evictLRU
      rw [if_pos (by simpa using hne)]
    rw [hLRU]
    exact ⟨hne, rfl⟩
  · rw [if_neg htrig]
    exact ⟨hne, rfl⟩

theorem setWithEvictions_eq (c : TTLCache) (key : String) (data : List Nat)
    (headers : List (String × List String)) (ttl now : Nat) :
    c.setWithEvictions key data headers ttl now =
      ((((c.checkMemoryLimits
            (createCacheEntry data headers ttl now).size).1).removeExistingEntry
          key).storeCacheEntry key (createCacheEntry data headers ttl now),
        (c.checkMemoryLimits (createCacheEntry data headers ttl now).size).2) := by
  unfold TTLCache.setWithEvictions
  show (match c.checkMemoryLimits (createCacheEntry data headers ttl now).size with
        | (c1, ev) =>
          ((c1.removeExistingEntry key).storeCacheEntry key
            (createCacheEntry data headers ttl now), ev)) = _
  cases h : c.checkMemoryLimits (createCacheEntry data headers ttl now).size with
  | mk c1 ev => rfl

/-- C10 (amended): the deficit wraps around to a value near `2^64` — and
hence `evictLRU` removes every entry before the new entry is inserted —
exactly when the eviction is triggered with the byte total plus TWICE the
new entry's cost strictly below the byte budget.  (In the remaining band
`byteTotal + cost ≤ budget ≤ byteTotal + 2·cost` the two wraparounds cancel
and only a small deficit is requested, so eviction can stop early.) -/
theorem c10_wrap_evicts_all (cfg : CacheConfig) (c : TTLCache) (key : String)
    (data : List Nat) (headers : List (String × List String)) (ttl now : Nat)
    (hcfg : c.config = cfg)
    (hexact : c.currentMemoryBytes = sumSizes c.entries)
    (hcount : c.entries.length ≥ cfg.maxEntries)
    (hwrap : c.currentMemoryBytes + 2 * (data.length + calculateHeaderSize headers)
      < maxMemoryBytes cfg)
    (hB : maxMemoryBytes cfg ≤ 2 ^ 62) :
    (c.Set key data headers ttl now).entries
      = [(key, createCacheEntry data headers ttl now)] := by
  have hU : maxMemoryBytes cfg < U64 := maxB_lt_U64 hB
  have hU64 : U64 = 18446744073709551616 := rfl
  have hesize : (createCacheEntry data headers ttl now).size
      = data.length + calculateHeaderSize headers := rfl
  have htrig : u64add c.currentMemoryBytes (createCacheEntry data headers ttl now).size
        > maxMemoryBytes c.config ∨
      c.entries.length ≥ c.config.maxEntries := by
    right
    rw [hcfg]
    exact hcount
  rw [set_unfold]
  have hent : (c.checkMemoryLimits (createCacheEntry data headers ttl now).size).1.entries
      = [] := by
    by_cases hne : c.entries = []
    · exact (checkMemoryLimits_entries_empty c _ hne).1
    · rw [checkMemoryLimits_pos c _ htrig hne]
      show (evictScan (u64add (u64sub (u64add c.currentMemoryBytes
          (createCacheEntry data headers ttl now).size) (maxMemoryBytes c.config))
          (createCacheEntry data headers ttl now).size) 0
          (c.entries.insertionSort leAccess)).2.1 = []
      have hperm : (c.entries.insertionSort leAccess).Perm c.entries :=
        List.perm_insertionSort leAccess c.entries
      have hsums : sumSizes (c.entries.insertionSort leAccess) = sumSizes c.entries :=
        sumSizes_perm hperm
      have haddU : u64add c.currentMemoryBytes (createCacheEntry data headers ttl now).size
          = c.currentMemoryBytes + (createCacheEntry data headers ttl now).size :=
        u64add_eq (by rw [hesize]; omega)
      have hsubw : u64sub (c.currentMemoryBytes + (createCacheEntry data headers ttl now).size)
          (maxMemoryBytes c.config)
          = U64 - (maxMemoryBytes cfg
              - (c.currentMemoryBytes + (createCacheEntry data headers ttl now).size)) := by
        rw [hcfg]
        exact u64sub_wrap (by rw [hesize]; omega) hU
      have haddβ : u64add (U64 - (maxMemoryBytes cfg
            - (c.currentMemoryBytes + (createCacheEntry data headers ttl now).size)))
            (createCacheEntry data headers ttl now).size
          = U64 - (maxMemoryBytes cfg
              - (c.currentMemoryBytes + (createCacheEntry data headers ttl now).size))
            + (createCacheEntry data headers ttl now).size :=
        u64add_eq (by rw [hesize]; omega)
      rw [haddU, hsubw, haddβ]
      rw [evictScan_all _ _ 0 (by rw [hesize]; omega) (by omega)]
  have hrem : ((c.checkMemoryLimits
        (createCacheEntry data headers ttl now).size).1.removeExistingEntry key)
      = (c.checkMemoryLimits (createCacheEntry data headers ttl now).size).1 := by
    unfold TTLCache.removeExistingEntry
    rw [hent]
    rfl
  rw [hrem]
  unfold TTLCache.storeCacheEntry
  show setEntry (c.checkMemoryLimits
      (createCacheEntry data headers ttl now).size).1.entries key
      (createCacheEntry data headers ttl now) = [(key, createCacheEntry data headers ttl now)]
  rw [hent]
  rfl

/-- A 400000-byte-cost artifact last accessed at instant 1. -/
def entryEv1 : CacheEntry := ⟨[], [], 1000, 1, 0, "", 400000⟩

/-- A 400000-byte-cost artifact last accessed at instant 2. -/
def entryEv2 : CacheEntry := ⟨[], [], 1000, 2, 0, "", 400000⟩

/-- A 1 MiB / 2-entry configuration. -/
def cfgTwo : CacheConfig := ⟨100, [], 1, 2, []⟩

/-- A full-to-capacity store: two 400000-byte entries, 800000 bytes. -/
def cacheTwo : TTLCache := ⟨[("a", entryEv1), ("b", entryEv2)], cfgTwo, none, 800000⟩

/-- On `cacheTwo`, a Set of a 200000-byte body lands in the band
`byteTotal + cost ≤ budget ≤ byteTotal + 2·cost`: the two uint64
wraparounds cancel, the deficit is the small value 151424, and only the
least-recently-used entry is evicted — `b` survives. -/
theorem partial_eviction_on_wrap (data : List Nat) (hlen : data.length = 200000) :
    cacheTwo.entries.length ≥ cacheTwo.config.maxEntries ∧
    u64add cacheTwo.currentMemoryBytes (createCacheEntry data [] 100 3).size
      ≤ maxMemoryBytes cacheTwo.config ∧
    lookupEntry (cacheTwo.Set "c" data [] 100 3).entries "b" = some entryEv2 := by
  have hsz : (createCacheEntry data [] 100 3).size = 200000 := by
    show data.length + calculateHeaderSize [] = 200000
    rw [hlen]
    rfl
  refine ⟨by decide, ?_, ?_⟩
  · rw [hsz]
    decide
  · rw [set_unfold, hsz]
    have hchk : cacheTwo.checkMemoryLimits 200000
        = (⟨[("b", entryEv2)], cfgTwo, none, 400000⟩, [("a", entryEv1)]) := by decide
    rw [hchk]
    show lookupEntry (setEntry [("b", entryEv2)] "c" (createCacheEntry data [] 100 3)) "b"
      = some entryEv2
    rfl

/-- C10 counterexample: with the entry count at the cap and the byte total
plus the new cost within the budget (800000 + 200000 ≤ 1048576), `Set`
does NOT remove every entry — entry `b` survives the eviction, because
`byteTotal + 2·cost = 1200000` exceeds the budget, the wraparounds cancel,
and the computed deficit is only 151424. -/
theorem c10_partial_eviction_counterexample :
    cacheTwo.entries.length ≥ cacheTwo.config.maxEntries ∧
    u64add cacheTwo.currentMemoryBytes
      (createCacheEntry (List.replicate 200000 0) [] 100 3).size
      ≤ maxMemoryBytes cacheTwo.config ∧
    lookupEntry (cacheTwo.Set "c" (List.replicate 200000 0) [] 100 3).entries "b"
      = some entryEv2 :=
  partial_eviction_on_wrap (List.replicate 200000 0) (List.length_replicate 200000 0)

/-- A 1 MiB / 1-entry configuration. -/
def cfgOne : CacheConfig := ⟨100, [], 1, 1, []⟩

/-- A 5-byte-cost artifact. -/
def entryW : CacheEntry := ⟨[], [], 50, 1, 0, "", 5⟩

/-- A store at its 1-entry cap, far below its byte budget. -/
def cacheOne : TTLCache := ⟨[("a", entryW)], cfgOne, none, 5⟩

/-- C10 witness: at the cap with the byte total far below the budget, the
wrapped deficit evicts everything and only the new entry remains. -/
theorem c10_wrap_evicts_all_witness :
    cacheOne.entries.length ≥ cfgOne.maxEntries ∧
    cacheOne.currentMemoryBytes
        + 2 * ((([7, 8] : List Nat)).length + calculateHeaderSize [])
      < maxMemoryBytes cfgOne ∧
    (cacheOne.Set "k" [7, 8] [] 100 9).entries
      = [("k", createCacheEntry [7, 8] [] 100 9)] :=
  ⟨by decide, by decide,
   c10_wrap_evicts_all cfgOne cacheOne "k" [7, 8] [] 100 9 rfl (by decide) (by decide)
     (by decide) (by decide)⟩

/-! ### LRU eviction ordering (C7) -/

theorem checkMemoryLimits_neg (c : TTLCache) (esize : Nat)
    (h : ¬ (u64add c.currentMemoryBytes esize > maxMemoryBytes c.config ∨
      c.entries.length ≥ c.config.maxEntries)) :
    c.checkMemoryLimits esize = (c, []) := by
  unfold TTLCache.checkMemoryLimits
  rw [if_neg h]

theorem removeExistingEntry_entries (c : TTLCache) (key : String) :
    (c.removeExistingEntry key).entries = c.entries := by
  unfold TTLCache.removeExistingEntry
  cases lookupEntry c.entries key <;> rfl

theorem store_remove_entries (x : TTLCache) (key : String) (e : CacheEntry) :
    ((x.removeExistingEntry key).storeCacheEntry key e).entries = setEntry x.entries key e := by
  show setEntry (x.removeExistingEntry key).entries key e = setEntry x.entries key e
  rw [removeExistingEntry_entries]

/-- C7: during a single Set, entries are evicted in ascending last-access
order — every evicted artifact's access instant is at most every surviving
artifact's (including the newly inserted one, whose access instant is the
current instant) — and eviction stops as soon as the freed bytes reach the
computed deficit or the store has been emptied: either nothing was
evicted, or the freed bytes cover the deficit, or only the new entry
remains; and no proper nonempty prefix of the evicted sequence already
covered the deficit. -/
theorem c7_lru_eviction_order (c : TTLCache) (key : String) (data : List Nat)
    (headers : List (String × List String)) (ttl now : Nat)
    (hnow : ∀ p ∈ c.entries, p.2.accessTime ≤ now)
    (hsum : sumSizes c.entries < U64) :
    (∀ a ∈ (c.setWithEvictions key data headers ttl now).2,
      ∀ b ∈ (c.setWithEvictions key data headers ttl now).1.entries,
        a.2.accessTime ≤ b.2.accessTime) ∧
    ((c.setWithEvictions key data headers ttl now).2 = [] ∨
      u64add (u64sub (u64add c.currentMemoryBytes
          (createCacheEntry data headers ttl now).size) (maxMemoryBytes c.config))
        (createCacheEntry data headers ttl now).size
        ≤ sumSizes (c.setWithEvictions key data headers ttl now).2 ∨
      (c.setWithEvictions key data headers ttl now).1.entries
        = [(key, createCacheEntry data headers ttl now)]) ∧
    (∀ p, p.IsPrefix (c.setWithEvictions key data headers ttl now).2 →
      p ≠ (c.setWithEvictions key data headers ttl now).2 → p ≠ [] →
      sumSizes p
        < u64add (u64sub (u64add c.currentMemoryBytes
            (createCacheEntry data headers ttl now).size) (maxMemoryBytes c.config))
          (createCacheEntry data headers ttl now).size) := by
  rw [setWithEvictions_eq]
  by_cases hne : c.entries = []
  · obtain ⟨_, hev⟩ :=
      checkMemoryLimits_entries_empty c (createCacheEntry data headers ttl now).size hne
    rw [hev]
    refine ⟨fun a ha => absurd ha (List.not_mem_nil a), Or.inl rfl, fun p hp hne' _ => ?_⟩
    exact absurd (List.prefix_nil.mp hp) hne'
  by_cases htrig : u64add c.currentMemoryBytes (createCacheEntry data headers ttl now).size
      > maxMemoryBytes c.config ∨ c.entries.length ≥ c.config.maxEntries
  case neg =>
    rw [checkMemoryLimits_neg c _ htrig]
    refine ⟨fun a ha => absurd ha (List.not_mem_nil a), Or.inl rfl, fun p hp hne' _ => ?_⟩
    exact absurd (List.prefix_nil.mp hp) hne'
  case pos =>
    rw [checkMemoryLimits_pos c _ htrig hne]
    set entry := createCacheEntry data headers ttl now with hentry
    set sorted := c.entries.insertionSort leAccess with hsorted
    set β := u64add (u64sub (u64add c.currentMemoryBytes entry.size)
      (maxMemoryBytes c.config)) entry.size with hβ
    have hperm : sorted.Perm c.entries := List.perm_insertionSort leAccess c.entries
    have hsums : sumSizes sorted = sumSizes c.entries := sumSizes_perm hperm
    have hsortU : 0 + sumSizes sorted < U64 := by omega
    have hsplit := evictScan_split β sorted 0
    have hfreed := evictScan_freed β sorted 0 hsortU
    have hsorted' : List.Sorted leAccess sorted := List.sorted_insertionSort leAccess c.entries
    have hpair : List.Pairwise leAccess ((evictScan β 0 sorted).1 ++ (evictScan β 0 sorted).2.1) := by
      rw [hsplit]
      exact hsorted'
    have hcross := (List.pairwise_append.mp hpair).2.2
    have hmemev : ∀ a ∈ (evictScan β 0 sorted).1, a ∈ c.entries := by
      intro a ha
      apply hperm.mem_iff.mp
      rw [← hsplit]
      exact List.mem_append_left _ ha
    refine ⟨?_, ?_, ?_⟩
    · intro a ha b hb
      rw [store_remove_entries] at hb
      rcases mem_setEntry hb with hbs | hbe
      · exact hcross a ha b hbs
      · rw [hbe]
        exact hnow a (hmemev a ha)
    · by_cases hsurv : (evictScan β 0 sorted).2.1 = []
      · right; right
        rw [store_remove_entries]
        show setEntry (evictScan β 0 sorted).2.1 key entry = [(key, entry)]
        rw [hsurv]
        rfl
      · right; left
        have hstop := evictScan_stop β sorted 0 hsurv
        show β ≤ sumSizes (evictScan β 0 sorted).1
        omega
    · intro p hp hne' hpnil
      rcases evictScan_min β sorted 0 p hp hne' hsortU with h1 | h1
      · omega
      · exact absurd h1 hpnil

/-- C7 witness: on the full two-entry store, the evicted entries of a
concrete Set all have access instants at most those of the survivors. -/
theorem c7_lru_eviction_order_witness :
    (∀ p ∈ cacheTwo.entries, p.2.accessTime ≤ 3) ∧ sumSizes cacheTwo.entries < U64 ∧
    (∀ a ∈ (cacheTwo.setWithEvictions "c" [9] [] 100 3).2,
      ∀ b ∈ (cacheTwo.setWithEvictions "c" [9] [] 100 3).1.entries,
        a.2.accessTime ≤ b.2.accessTime) :=
  ⟨by decide, by decide,
   (c7_lru_eviction_order cacheTwo "c" [9] [] 100 3 (by decide) (by decide)).1⟩

/-! ### The overwrite law (C8) -/

theorem set_fresh_no_evict (c : TTLCache) (key : String) (data : List Nat)
    (headers : List (String × List String)) (ttl now : Nat)
    (hnotrig : ¬ (u64add c.currentMemoryBytes (createCacheEntry data headers ttl now).size
        > maxMemoryBytes c.config ∨ c.entries.length ≥ c.config.maxEntries))
    (hfresh : lookupEntry c.entries key = none) :
    c.Set key data headers ttl now =
      { c with
          entries := setEntry c.entries key (createCacheEntry data headers ttl now),
          currentMemoryBytes :=
            u64add c.currentMemoryBytes (createCacheEntry data headers ttl now).size,
          metrics := updMetrics CacheMetrics.RecordStore c.metrics } := by
  rw [set_unfold, checkMemoryLimits_neg c _ hnotrig]
  show ((c.removeExistingEntry key).storeCacheEntry key
    (createCacheEntry data headers ttl now)) = _
  unfold TTLCache.removeExistingEntry
  rw [hfresh]
  rfl

theorem set_existing_no_evict (c : TTLCache) (key : String) (data : List Nat)
    (headers : List (String × List String)) (ttl now : Nat) (old : CacheEntry)
    (hnotrig : ¬ (u64add c.currentMemoryBytes (createCacheEntry data headers ttl now).size
        > maxMemoryBytes c.config ∨ c.entries.length ≥ c.config.maxEntries))
    (hlook : lookupEntry c.entries key = some old) :
    c.Set key data headers ttl now =
      { c with
          entries := setEntry c.entries key (createCacheEntry data headers ttl now),
          currentMemoryBytes :=
            u64add (u64sub c.currentMemoryBytes old.size)
              (createCacheEntry data headers ttl now).size,
          metrics := updMetrics CacheMetrics.RecordStore c.metrics } := by
  rw [set_unfold, checkMemoryLimits_neg c _ hnotrig]
  show ((c.removeExistingEntry key).storeCacheEntry key
    (createCacheEntry data headers ttl now)) = _
  unfold TTLCache.removeExistingEntry
  rw [hlook]
  rfl

theorem get_live_hit (c : TTLCache) (key : String) (now : Nat) (e : CacheEntry)
    (hl : lookupEntry c.entries key = some e) (hexp : e.IsExpired now = false) :
    (c.Get key now).1 = some { e with accessTime := now } := by
  unfold TTLCache.Get
  simp only [hl, hexp, Bool.false_eq_true, if_false]

/-- C8: overwrite law.  With key K initially absent, no eviction triggered
by either Set (both fit the budget and the cap) and the second artifact
still live at the lookup instant, `Set(K, v1); Set(K, v2); Get(K)` returns
the v2 artifact (its body is v2, access time refreshed), and the byte
total counts only the v2 artifact's cost for K: it is the initial total
plus v2's cost, v1's cost having been subtracted on replacement. -/
theorem c8_overwrite_law (c : TTLCache) (key : String)
    (v1 : List Nat) (h1 : List (String × List String)) (ttl1 t1 : Nat)
    (v2 : List Nat) (h2 : List (String × List String)) (ttl2 t2 t3 : Nat)
    (hB : maxMemoryBytes c.config ≤ 2 ^ 62)
    (hfresh : lookupEntry c.entries key = none)
    (hsz1 : c.currentMemoryBytes + (v1.length + calculateHeaderSize h1)
      ≤ maxMemoryBytes c.config)
    (hcnt1 : c.entries.length < c.config.maxEntries)
    (hsz2 : c.currentMemoryBytes + (v1.length + calculateHeaderSize h1)
        + (v2.length + calculateHeaderSize h2) ≤ maxMemoryBytes c.config)
    (hcnt2 : c.entries.length + 1 < c.config.maxEntries)
    (hlive : t3 ≤ t2 + ttl2) :
    (((c.Set key v1 h1 ttl1 t1).Set key v2 h2 ttl2 t2).Get key t3).1
      = some { createCacheEntry v2 h2 ttl2 t2 with accessTime := t3 } ∧
    ((c.Set key v1 h1 ttl1 t1).Set key v2 h2 ttl2 t2).currentMemoryBytes
      = c.currentMemoryBytes + (v2.length + calculateHeaderSize h2) := by
  have hU64 : U64 = 18446744073709551616 := rfl
  have hU : maxMemoryBytes c.config < U64 := maxB_lt_U64 hB
  have hsz1' : (createCacheEntry v1 h1 ttl1 t1).size = v1.length + calculateHeaderSize h1 := rfl
  have hsz2' : (createCacheEntry v2 h2 ttl2 t2).size = v2.length + calculateHeaderSize h2 := rfl
  have hadd1 : u64add c.currentMemoryBytes (createCacheEntry v1 h1 ttl1 t1).size
      = c.currentMemoryBytes + (createCacheEntry v1 h1 ttl1 t1).size :=
    u64add_eq (by rw [hsz1']; omega)
  have hset1 : c.Set key v1 h1 ttl1 t1 =
      { c with
          entries := setEntry c.entries key (createCacheEntry v1 h1 ttl1 t1),
          currentMemoryBytes :=
            u64add c.currentMemoryBytes (createCacheEntry v1 h1 ttl1 t1).size,
          metrics := updMetrics CacheMetrics.RecordStore c.metrics } :=
    set_fresh_no_evict c key v1 h1 ttl1 t1
      (by
        push_neg
        constructor
        · rw [hadd1, hsz1']
          omega
        · omega)
      hfresh
  rw [hset1]
  set c1 : TTLCache :=
    { c with
        entries := setEntry c.entries key (createCacheEntry v1 h1 ttl1 t1),
        currentMemoryBytes :=
          u64add c.currentMemoryBytes (createCacheEntry v1 h1 ttl1 t1).size,
        metrics := updMetrics CacheMetrics.RecordStore c.metrics } with hc1
  have hc1mem : c1.currentMemoryBytes
      = c.currentMemoryBytes + (v1.length + calculateHeaderSize h1) := by
    rw [hc1]
    show u64add c.currentMemoryBytes (createCacheEntry v1 h1 ttl1 t1).size = _
    rw [hadd1, hsz1']
  have hc1len : c1.entries.length = c.entries.length + 1 := by
    rw [hc1]
    show (setEntry c.entries key (createCacheEntry v1 h1 ttl1 t1)).length = _
    exact length_setEntry_of_none _ hfresh
  have hc1look : lookupEntry c1.entries key = some (createCacheEntry v1 h1 ttl1 t1) := by
    rw [hc1]
    exact lookup_setEntry_self c.entries key (createCacheEntry v1 h1 ttl1 t1)
  have hc1cfg : c1.config = c.config := by rw [hc1]
  have hadd2 : u64add c1.currentMemoryBytes (createCacheEntry v2 h2 ttl2 t2).size
      = c1.currentMemoryBytes + (createCacheEntry v2 h2 ttl2 t2).size :=
    u64add_eq (by rw [hc1mem, hsz2']; omega)
  have hset2 : c1.Set key v2 h2 ttl2 t2 =
      { c1 with
          entries := setEntry c1.entries key (createCacheEntry v2 h2 ttl2 t2),
          currentMemoryBytes :=
            u64add (u64sub c1.currentMemoryBytes (createCacheEntry v1 h1 ttl1 t1).size)
              (createCacheEntry v2 h2 ttl2 t2).size,
          metrics := updMetrics CacheMetrics.RecordStore c1.metrics } :=
    set_existing_no_evict c1 key v2 h2 ttl2 t2 (createCacheEntry v1 h1 ttl1 t1)
      (by
        push_neg
        rw [hc1cfg]
        constructor
        · rw [hadd2, hc1mem, hsz2']
          omega
        · rw [hc1len]
          omega)
      hc1look
  rw [hset2]
  have hmemfinal : u64add (u64sub c1.currentMemoryBytes
        (createCacheEntry v1 h1 ttl1 t1).size) (createCacheEntry v2 h2 ttl2 t2).size
      = c.currentMemoryBytes + (v2.length + calculateHeaderSize h2) := by
    rw [u64sub_eq (by rw [hc1mem, hsz1']; omega) (by rw [hc1mem]; omega),
      u64add_eq (by rw [hc1mem, hsz1', hsz2']; omega)]
    rw [hc1mem, hsz1', hsz2']
    omega
  constructor
  · have hexp : (createCacheEntry v2 h2 ttl2 t2).IsExpired t3 = false := by
      unfold CacheEntry.IsExpired
      show decide (t3 > t2 + ttl2) = false
      simp only [decide_eq_false_iff_not]
      omega
    exact get_live_hit _ key t3 (createCacheEntry v2 h2 ttl2 t2)
      (lookup_setEntry_self _ _ _) hexp
  · exact hmemfinal

/-- C8 witness: two Sets under key `k` on an empty default store, then a
live Get, return the second body with only its cost counted. -/
theorem c8_overwrite_law_witness :
    lookupEntry (NewTTLCache cfgA none).entries "k" = none ∧
    ((((NewTTLCache cfgA none).Set "k" [1] [] 10 0).Set "k" [2, 3] [] 10 1).Get "k" 5).1
      = some { createCacheEntry [2, 3] [] 10 1 with accessTime := 5 } ∧
    (((NewTTLCache cfgA none).Set "k" [1] [] 10 0).Set "k" [2, 3] [] 10 1).currentMemoryBytes
      = (NewTTLCache cfgA none).currentMemoryBytes
        + (([2, 3] : List Nat).length + calculateHeaderSize []) :=
  ⟨by decide,
   (c8_overwrite_law (NewTTLCache cfgA none) "k" [1] [] 10 0 [2, 3] [] 10 1 5
     (by decide) (by decide) (by decide) (by decide) (by decide) (by decide) (by decide)).1,
   (c8_overwrite_law (NewTTLCache cfgA none) "k" [1] [] 10 0 [2, 3] [] 10 1 5
     (by decide) (by decide) (by decide) (by decide) (by decide) (by decide) (by decide)).2⟩
